import Mathlib

/-!
Verification of the content pipeline of a static portfolio/blog site.

The repository contains two Node build scripts (a Substack RSS feed
ingester `build-blog.js` and a Jupyter notebook ingester
`build-notebooks.js`) plus a client-side notebook renderer
(`notebook-renderer.js`) and shared `utils.js`.  This development gives a
shallow embedding of the string/JSON processing performed by those
scripts: JavaScript strings are modelled as `List Char` (the sources only
rely on code-unit behaviour for ASCII data, where the two coincide), the
regex operations used by the scripts are modelled by equivalent explicit
scanners, and `JSON.parse` is modelled by an executable JSON parser.

Where the repository contains two generations of a module (a legacy copy
and the documented current copy), the embedding follows the current copy,
which is the one the specification describes: `parseItem` with DOMPurify
sanitization and `init` with slug validation.
-/

set_option maxRecDepth 10000

namespace Site

/-! ## Character classes used by the JavaScript regexes -/

/-- Characters matched by the JavaScript regex class `\s`; this is also the
set stripped by `String.prototype.trim`. -/
def isJsSpace (c : Char) : Bool :=
  c == ' ' || c == '\t' || c == '\n' || c == Char.ofNat 0x0B || c == Char.ofNat 0x0C ||
  c == '\r' || c == Char.ofNat 0xA0 || c == Char.ofNat 0x1680 ||
  (Char.ofNat 0x2000 ≤ c && c ≤ Char.ofNat 0x200A) ||
  c == Char.ofNat 0x2028 || c == Char.ofNat 0x2029 || c == Char.ofNat 0x202F ||
  c == Char.ofNat 0x205F || c == Char.ofNat 0x3000 || c == Char.ofNat 0xFEFF

/-- JavaScript line terminators: the characters that the regex `.` does not
match and that `$` (without the `m` flag) does not skip. -/
def isLineTerm (c : Char) : Bool :=
  c == '\n' || c == '\r' || c == Char.ofNat 0x2028 || c == Char.ofNat 0x2029

/-- Characters matched by the JavaScript regex class `\w`. -/
def isWordChar (c : Char) : Bool :=
  c.isAlpha || c.isDigit || c == '_'

/-- Lower-case letters and digits, the class `[a-z0-9]` of `slugify`. -/
def isLowerAlnum (c : Char) : Bool :=
  ('a' ≤ c && c ≤ 'z') || c.isDigit

/-! ## Generic list utilities shared by the embeddings -/

/-- Model of a JavaScript global replace of a character-class run by a
single character: `replace(/P+/g, r)` where `P` is the class decided by
`p`.  Maximal runs of characters satisfying `p` are replaced by the single
character `r`. -/
def collapseRuns (p : Char → Bool) (r : Char) : List Char → List Char
  | [] => []
  | c :: cs =>
    if p c then r :: collapseRuns p r (cs.dropWhile p)
    else c :: collapseRuns p r cs
termination_by l => l.length
decreasing_by
  · exact Nat.lt_succ_of_le (List.dropWhile_suffix p).sublist.length_le
  · exact Nat.lt_succ_self _

/-- Structural companion of `collapseRuns` carrying an in-run flag, used to
evaluate `collapseRuns` by kernel reduction on concrete inputs. -/
def collapseRunsAux (p : Char → Bool) (r : Char) : Bool → List Char → List Char
  | _, [] => []
  | inRun, c :: cs =>
    if p c then
      (if inRun then collapseRunsAux p r true cs
       else r :: collapseRunsAux p r true cs)
    else c :: collapseRunsAux p r false cs

theorem collapseRunsAux_true (p : Char → Bool) (r : Char) :
    ∀ l : List Char,
      collapseRunsAux p r true l = collapseRunsAux p r false (l.dropWhile p) := by
  intro l
  induction l with
  | nil => rfl
  | cons c cs ih =>
    cases hpc : p c with
    | true => simp [collapseRunsAux, hpc, ih, List.dropWhile_cons]
    | false => simp [collapseRunsAux, hpc, List.dropWhile_cons]

theorem collapseRuns_eq_aux (p : Char → Bool) (r : Char) :
    ∀ l : List Char, collapseRuns p r l = collapseRunsAux p r false l := by
  intro l
  induction l using collapseRuns.induct p r with
  | case1 => simp [collapseRuns, collapseRunsAux]
  | case2 c cs hp ih =>
    rw [collapseRuns, if_pos hp, ih, ← collapseRunsAux_true p r cs]
    simp [collapseRunsAux, hp]
  | case3 c cs hp ih =>
    rw [collapseRuns, if_neg hp, ih]
    have hpc : p c = false := by simpa using hp
    simp [collapseRunsAux, hpc]

/-- Model of `String.prototype.trim`. -/
def jsTrim (l : List Char) : List Char :=
  ((l.dropWhile isJsSpace).reverse.dropWhile isJsSpace).reverse

/-- Model of one application of the anchored alternative `^-` of the regex
`/^-|-$/g`: remove a single leading hyphen if present. -/
def dropLeadHyphen : List Char → List Char
  | [] => []
  | c :: t => if c = '-' then t else c :: t

/-- Model of `replace(/^-|-$/g, '')`: remove one leading and one trailing
hyphen (the global regex matches at most once at each anchor). -/
def trimEdgeHyphens (l : List Char) : List Char :=
  (dropLeadHyphen (dropLeadHyphen l).reverse).reverse

/-! ## slugify (build-blog.js) -/

/-- Character class kept by `replace(/[^a-z0-9\s-]/g, '')`. -/
def slugKeep (c : Char) : Bool :=
  isLowerAlnum c || isJsSpace c || c == '-'

/-- The slug value before the final `.slice(0, 80)` truncation.
`Char.toLower` models `String.prototype.toLowerCase`; the two agree on
ASCII, and any character on which they might differ is removed by the
following filter in both models. -/
def slugifyPre (title : List Char) : List Char :=
  let lowered := title.map Char.toLower
  let kept := lowered.filter slugKeep
  let spaced := collapseRuns isJsSpace '-' kept
  let dashed := collapseRuns (fun c => c == '-') '-' spaced
  trimEdgeHyphens dashed

/-- Embedding of `slugify` from `build-blog.js`: lower-case, drop
characters outside `[a-z0-9\s-]`, collapse whitespace runs to `-`,
collapse hyphen runs, trim one leading/trailing hyphen, truncate to 80. -/
def slugifyCore (title : List Char) : List Char :=
  (slugifyPre title).take 80

/-- String-level wrapper of `slugifyCore`. -/
def slugify (s : String) : String :=
  ⟨slugifyCore s.data⟩

/-! ## Character-class facts -/

theorem toNat_facts_of_isJsSpace {c : Char} (h : isJsSpace c = true) :
    c.toNat = 32 ∨ c.toNat = 9 ∨ c.toNat = 10 ∨ c.toNat = 11 ∨ c.toNat = 12 ∨
    c.toNat = 13 ∨ c.toNat = 160 ∨ c.toNat = 5760 ∨
    (8192 ≤ c.toNat ∧ c.toNat ≤ 8202) ∨ c.toNat = 8232 ∨ c.toNat = 8233 ∨
    c.toNat = 8239 ∨ c.toNat = 8287 ∨ c.toNat = 12288 ∨ c.toNat = 65279 := by
  simp only [isJsSpace, Bool.or_eq_true, beq_iff_eq, Bool.and_eq_true,
    decide_eq_true_eq] at h
  rcases h with ((((((((((((((h|h)|h)|h)|h)|h)|h)|h)|h)|h)|h)|h)|h)|h)|h)
  all_goals first
    | (subst h; decide)
    | (exact Or.inr (Or.inr (Or.inr (Or.inr (Or.inr (Or.inr (Or.inr (Or.inr
        (Or.inl ⟨UInt32.le_def.mp (Char.le_def.mp h.1),
                 UInt32.le_def.mp (Char.le_def.mp h.2)⟩)))))))))

theorem toNat_facts_of_isLowerAlnum {c : Char} (h : isLowerAlnum c = true) :
    (97 ≤ c.toNat ∧ c.toNat ≤ 122) ∨ (48 ≤ c.toNat ∧ c.toNat ≤ 57) := by
  simp only [isLowerAlnum, Bool.or_eq_true, Bool.and_eq_true, decide_eq_true_eq,
    Char.isDigit] at h
  rcases h with ⟨h1, h2⟩ | ⟨h1, h2⟩
  · exact Or.inl ⟨UInt32.le_def.mp (Char.le_def.mp h1),
      UInt32.le_def.mp (Char.le_def.mp h2)⟩
  · exact Or.inr ⟨UInt32.le_def.mp h1, UInt32.le_def.mp h2⟩

theorem isJsSpace_eq_false_of_isLowerAlnum {c : Char} (h : isLowerAlnum c = true) :
    isJsSpace c = false := by
  cases hsp : isJsSpace c with
  | false => rfl
  | true =>
    exfalso
    have h1 := toNat_facts_of_isLowerAlnum h
    have h2 := toNat_facts_of_isJsSpace hsp
    omega

theorem toLower_eq_self_of_slugChar {c : Char} (h : isLowerAlnum c = true ∨ c = '-') :
    c.toLower = c := by
  rcases h with h | h
  · have h1 := toNat_facts_of_isLowerAlnum h
    unfold Char.toLower
    rw [if_neg (by omega)]
  · subst h; decide

/-! ## Lemmas about `collapseRuns` -/

theorem mem_collapseRuns {p : Char → Bool} {r : Char} {l : List Char} {c : Char}
    (h : c ∈ collapseRuns p r l) : c = r ∨ (c ∈ l ∧ p c = false) := by
  induction l using collapseRuns.induct p r with
  | case1 => simp [collapseRuns] at h
  | case2 c' cs hp ih =>
    rw [collapseRuns, if_pos hp] at h
    rcases List.mem_cons.mp h with h1 | h2
    · exact Or.inl h1
    · rcases ih h2 with h3 | ⟨h4, h5⟩
      · exact Or.inl h3
      · exact Or.inr ⟨List.mem_cons_of_mem _ ((List.dropWhile_suffix p).sublist.mem h4), h5⟩
  | case3 c' cs hp ih =>
    rw [collapseRuns, if_neg hp] at h
    rcases List.mem_cons.mp h with h1 | h2
    · subst h1; exact Or.inr ⟨List.mem_cons_self _ _, by simpa using hp⟩
    · rcases ih h2 with h3 | ⟨h4, h5⟩
      · exact Or.inl h3
      · exact Or.inr ⟨List.mem_cons_of_mem _ h4, h5⟩

theorem head?_dropWhile_false {p : Char → Bool} :
    ∀ {l : List Char} {y : Char}, (l.dropWhile p).head? = some y → p y = false := by
  intro l
  induction l with
  | nil => intro y hy; simp [List.dropWhile] at hy
  | cons c cs ih =>
    intro y hy
    cases hpc : p c with
    | true => rw [List.dropWhile_cons, if_pos (by simp [hpc])] at hy; exact ih hy
    | false =>
      rw [List.dropWhile_cons, if_neg (by simp [hpc])] at hy
      simp only [List.head?_cons, Option.some.injEq] at hy
      subst hy; exact hpc

theorem head?_collapseRuns_false {p : Char → Bool} {r : Char} {l : List Char}
    (h : ∀ x, l.head? = some x → p x = false) :
    ∀ y, (collapseRuns p r l).head? = some y → p y = false := by
  intro y hy
  cases l with
  | nil => simp [collapseRuns] at hy
  | cons c cs =>
    have hpc : p c = false := h c rfl
    rw [collapseRuns, if_neg (by simp [hpc])] at hy
    simp only [List.head?_cons, Option.some.injEq] at hy
    subst hy; exact hpc

theorem chain'_collapseRuns (p : Char → Bool) (r : Char) (l : List Char) :
    (collapseRuns p r l).Chain' (fun a b => p a = false ∨ p b = false) := by
  induction l using collapseRuns.induct p r with
  | case1 => simp [collapseRuns]
  | case2 c cs hp ih =>
    rw [collapseRuns, if_pos hp]
    refine List.chain'_cons'.mpr ⟨?_, ih⟩
    intro y hy
    rw [Option.mem_def] at hy
    exact Or.inr (head?_collapseRuns_false (fun x hx => head?_dropWhile_false hx) y hy)
  | case3 c cs hp ih =>
    rw [collapseRuns, if_neg hp]
    refine List.chain'_cons'.mpr ⟨?_, ih⟩
    intro y _
    exact Or.inl (by simpa using hp)

theorem collapseRuns_eq_self_of_not {p : Char → Bool} {r : Char} :
    ∀ {l : List Char}, (∀ c ∈ l, p c = false) → collapseRuns p r l = l := by
  intro l
  induction l with
  | nil => intro _; simp [collapseRuns]
  | cons c cs ih =>
    intro h
    rw [collapseRuns, if_neg (by simp [h c (List.mem_cons_self c cs)]),
      ih (fun x hx => h x (List.mem_cons_of_mem c hx))]

theorem dropWhile_eq_self_of_head {p : Char → Bool} {l : List Char}
    (h : ∀ x, l.head? = some x → p x = false) : l.dropWhile p = l := by
  cases l with
  | nil => rfl
  | cons c cs => rw [List.dropWhile_cons, if_neg (by simp [h c rfl])]

theorem collapseRuns_eq_self_of_chain {p : Char → Bool} {r : Char}
    (hr : ∀ c, p c = true → c = r) :
    ∀ {l : List Char}, l.Chain' (fun a b => p a = false ∨ p b = false) →
      collapseRuns p r l = l := by
  intro l
  induction l using collapseRuns.induct p r with
  | case1 => intro _; simp [collapseRuns]
  | case2 c cs hp ih =>
    intro hch
    have hhead : ∀ x, cs.head? = some x → p x = false := by
      intro x hx
      rcases (List.chain'_cons'.mp hch).1 x (by rw [Option.mem_def, hx]) with h1 | h2
      · rw [hp] at h1; exact absurd h1 (by simp)
      · exact h2
    have hdw : cs.dropWhile p = cs := dropWhile_eq_self_of_head hhead
    rw [hdw] at ih
    rw [collapseRuns, if_pos hp, hdw, ih hch.tail, ← hr c hp]
  | case3 c cs hp ih =>
    intro hch
    rw [collapseRuns, if_neg hp, ih hch.tail]

/-! ## Lemmas about `trimEdgeHyphens` -/

/-- The no-adjacent-hyphens relation produced by the hyphen-collapsing pass. -/
def hyRel (a b : Char) : Prop := (a == '-') = false ∨ (b == '-') = false

theorem dropLeadHyphen_eq_or (l : List Char) :
    dropLeadHyphen l = l ∨ dropLeadHyphen l = l.tail := by
  cases l with
  | nil => exact Or.inl rfl
  | cons c t =>
    by_cases hc : c = '-'
    · exact Or.inr (by simp [dropLeadHyphen, hc])
    · exact Or.inl (by simp [dropLeadHyphen, hc])

theorem mem_dropLeadHyphen {c : Char} {l : List Char} (h : c ∈ dropLeadHyphen l) :
    c ∈ l := by
  rcases dropLeadHyphen_eq_or l with he | he <;> rw [he] at h
  · exact h
  · exact (List.tail_sublist l).mem h

theorem chain'_dropLeadHyphen {R : Char → Char → Prop} {l : List Char}
    (h : l.Chain' R) : (dropLeadHyphen l).Chain' R := by
  rcases dropLeadHyphen_eq_or l with he | he <;> rw [he]
  · exact h
  · exact h.tail

theorem chain'_reverse_of_symm {R : Char → Char → Prop}
    (hsym : ∀ a b, R a b → R b a) {l : List Char} (h : l.Chain' R) :
    l.reverse.Chain' R :=
  List.chain'_reverse.mpr (h.imp (fun a b hab => hsym a b hab))

theorem head?_dropLeadHyphen_ne {l : List Char} (h : l.Chain' hyRel) :
    (dropLeadHyphen l).head? ≠ some '-' := by
  cases l with
  | nil => decide
  | cons c t =>
    by_cases hc : c = '-'
    · subst hc
      have he : dropLeadHyphen ('-' :: t) = t := rfl
      rw [he]
      intro hy
      cases t with
      | nil => simp at hy
      | cons d t' =>
        simp only [List.head?_cons, Option.some.injEq] at hy
        subst hy
        rcases (List.chain'_cons'.mp h).1 '-' (by rw [Option.mem_def]; rfl) with h1 | h1 <;>
          simp at h1
    · simp only [dropLeadHyphen, if_neg hc, List.head?_cons]
      intro hy
      exact hc (by simpa using hy)

theorem head?_dropLast_some {l : List Char} {c : Char}
    (h : l.dropLast.head? = some c) : l.head? = some c := by
  cases l with
  | nil => simp at h
  | cons a t =>
    cases t with
    | nil => simp at h
    | cons b t' => simp at h ⊢; simpa using h

theorem hyRel_symm (a b : Char) (h : hyRel a b) : hyRel b a := h.symm

theorem head?_trimEdgeHyphens_ne {l : List Char} (h : l.Chain' hyRel) :
    (trimEdgeHyphens l).head? ≠ some '-' := by
  unfold trimEdgeHyphens
  set m := dropLeadHyphen l with hm
  have hmne : m.head? ≠ some '-' := head?_dropLeadHyphen_ne h
  rcases dropLeadHyphen_eq_or m.reverse with he | he <;> rw [he]
  · rw [List.reverse_reverse]; exact hmne
  · rw [List.tail_reverse, List.reverse_reverse]
    intro hy
    exact hmne (head?_dropLast_some hy)

theorem getLast?_trimEdgeHyphens_ne {l : List Char} (h : l.Chain' hyRel) :
    (trimEdgeHyphens l).getLast? ≠ some '-' := by
  unfold trimEdgeHyphens
  rw [List.getLast?_reverse]
  exact head?_dropLeadHyphen_ne
    (chain'_reverse_of_symm hyRel_symm (chain'_dropLeadHyphen h))

theorem mem_trimEdgeHyphens {c : Char} {l : List Char}
    (h : c ∈ trimEdgeHyphens l) : c ∈ l := by
  unfold trimEdgeHyphens at h
  rw [List.mem_reverse] at h
  have h2 := mem_dropLeadHyphen h
  rw [List.mem_reverse] at h2
  exact mem_dropLeadHyphen h2

theorem chain'_trimEdgeHyphens {l : List Char} (h : l.Chain' hyRel) :
    (trimEdgeHyphens l).Chain' hyRel :=
  chain'_reverse_of_symm hyRel_symm
    (chain'_dropLeadHyphen
      (chain'_reverse_of_symm hyRel_symm (chain'_dropLeadHyphen h)))

theorem trimEdgeHyphens_eq_self {l : List Char}
    (hh : l.head? ≠ some '-') (hl : l.getLast? ≠ some '-') :
    trimEdgeHyphens l = l := by
  have e1 : dropLeadHyphen l = l := by
    cases l with
    | nil => rfl
    | cons c t =>
      have hcne : c ≠ '-' := by
        intro hc
        exact hh (by simp [hc])
      simp only [dropLeadHyphen, if_neg hcne]
  unfold trimEdgeHyphens
  rw [e1]
  have e2 : dropLeadHyphen l.reverse = l.reverse := by
    cases hr : l.reverse with
    | nil => rfl
    | cons c t =>
      have hlast : l.getLast? = some c := by rw [← List.head?_reverse, hr]; rfl
      have hcne : c ≠ '-' := by
        intro hc
        exact hl (by rw [hlast, hc])
      simp only [dropLeadHyphen, if_neg hcne]
  rw [e2, List.reverse_reverse]

/-! ## Structural facts about `slugifyPre` and `slugifyCore` -/

theorem chain'_slugifyPre (t : List Char) : (slugifyPre t).Chain' hyRel := by
  unfold slugifyPre
  exact chain'_trimEdgeHyphens (chain'_collapseRuns _ '-' _)

theorem slugChar_mem_slugifyPre {t : List Char} {c : Char}
    (h : c ∈ slugifyPre t) : isLowerAlnum c = true ∨ c = '-' := by
  unfold slugifyPre at h
  have h1 := mem_trimEdgeHyphens h
  rcases mem_collapseRuns h1 with h2 | ⟨h2, h3⟩
  · exact Or.inr h2
  · rcases mem_collapseRuns h2 with h4 | ⟨h4, h5⟩
    · rw [h4] at h3; simp at h3
    · have h6 := List.of_mem_filter h4
      simp only [slugKeep, Bool.or_eq_true] at h6
      rcases h6 with (h7 | h7) | h7
      · exact Or.inl h7
      · rw [h7] at h5; simp at h5
      · rw [beq_iff_eq] at h7; rw [h7] at h3; simp at h3

theorem head?_slugifyPre_ne (t : List Char) : (slugifyPre t).head? ≠ some '-' := by
  unfold slugifyPre
  exact head?_trimEdgeHyphens_ne (chain'_collapseRuns _ '-' _)

theorem getLast?_slugifyPre_ne (t : List Char) :
    (slugifyPre t).getLast? ≠ some '-' := by
  unfold slugifyPre
  exact getLast?_trimEdgeHyphens_ne (chain'_collapseRuns _ '-' _)

theorem slugifyPre_fixpoint (t : List Char) :
    slugifyPre (slugifyPre t) = slugifyPre t := by
  have hmem : ∀ c ∈ slugifyPre t, isLowerAlnum c = true ∨ c = '-' :=
    fun c hc => slugChar_mem_slugifyPre hc
  have e1 : (slugifyPre t).map Char.toLower = slugifyPre t := by
    rw [show (slugifyPre t).map Char.toLower = (slugifyPre t).map id from
      List.map_congr_left (fun a ha => toLower_eq_self_of_slugChar (hmem a ha)),
      List.map_id]
  have e2 : (slugifyPre t).filter slugKeep = slugifyPre t := by
    rw [List.filter_eq_self]
    intro a ha
    rcases hmem a ha with h | h
    · simp [slugKeep, h]
    · simp [slugKeep, h]
  have e3 : collapseRuns isJsSpace '-' (slugifyPre t) = slugifyPre t := by
    apply collapseRuns_eq_self_of_not
    intro c hc
    rcases hmem c hc with h | h
    · exact isJsSpace_eq_false_of_isLowerAlnum h
    · rw [h]; decide
  have e4 : collapseRuns (fun c => c == '-') '-' (slugifyPre t) = slugifyPre t :=
    collapseRuns_eq_self_of_chain (fun c hc => by simpa using hc)
      (chain'_slugifyPre t)
  have e5 : trimEdgeHyphens (slugifyPre t) = slugifyPre t :=
    trimEdgeHyphens_eq_self (head?_slugifyPre_ne t) (getLast?_slugifyPre_ne t)
  conv_lhs => rw [slugifyPre]
  rw [e1, e2, e3, e4, e5]

theorem head?_take_pos {l : List Char} {n : Nat} (hn : 0 < n) :
    (l.take n).head? = l.head? := by
  cases l with
  | nil => simp
  | cons c t =>
    cases n with
    | zero => omega
    | succ m => simp [List.take_succ_cons]

/-- The concrete title used to refute the spec's slugify properties: 79 `a`s
followed by a space and a `b`.  Its pre-truncation slug is 79 `a`s, a
hyphen, and a `b` (81 characters), so the `slice(0, 80)` cut lands right
after the hyphen. -/
def c3Title : List Char := List.replicate 79 'a' ++ [' ', 'b']

/-- C3 counterexample: the claim says `slugify(T)` never ends in `-` and is
idempotent, but for `c3Title` the hyphen-trimming happens before the
80-character truncation, so the result ends in `-` and applying `slugify`
again removes that hyphen, contradicting both parts of the claim. -/
theorem slugify_c3_counterexample :
    (slugifyCore c3Title).getLast? = some '-' ∧
    slugifyCore (slugifyCore c3Title) ≠ slugifyCore c3Title := by
  constructor <;> · simp only [slugifyCore, slugifyPre, collapseRuns_eq_aux]; decide

/-- C3 (amended): for every title `T`, `slugify(T)` contains only
`[a-z0-9-]`, does not start with `-`, and has length at most 80; moreover,
whenever no truncation occurs (the pre-truncation slug has length at most
80), `slugify(T)` also does not end with `-` and `slugify` is idempotent
at `T`.  (The original claim asserted the last two properties
unconditionally; `slugify_c3_counterexample` shows they fail when the
80-character cut lands just after a hyphen.) -/
theorem slugify_c3_amended (title : List Char) :
    (∀ c ∈ slugifyCore title, isLowerAlnum c = true ∨ c = '-') ∧
    (slugifyCore title).head? ≠ some '-' ∧
    (slugifyCore title).length ≤ 80 ∧
    ((slugifyPre title).length ≤ 80 →
      (slugifyCore title).getLast? ≠ some '-' ∧
      slugifyCore (slugifyCore title) = slugifyCore title) := by
  refine ⟨?_, ?_, ?_, ?_⟩
  · intro c hc
    exact slugChar_mem_slugifyPre ((List.take_sublist 80 _).mem hc)
  · unfold slugifyCore
    rw [head?_take_pos (by norm_num)]
    exact head?_slugifyPre_ne title
  · unfold slugifyCore
    rw [List.length_take]
    exact min_le_left _ _
  · intro h80
    have heq : slugifyCore title = slugifyPre title := List.take_of_length_le h80
    constructor
    · rw [heq]; exact getLast?_slugifyPre_ne title
    · rw [heq]
      unfold slugifyCore
      rw [slugifyPre_fixpoint title]
      exact List.take_of_length_le h80

/-- Witness for `slugify_c3_amended`: the no-truncation hypothesis holds at
the spec's own end-to-end example title, and idempotence follows. -/
theorem slugify_c3_amended_witness :
    (slugifyPre ("Hello, World! 2024".data)).length ≤ 80 ∧
    slugifyCore (slugifyCore ("Hello, World! 2024".data)) =
      slugifyCore ("Hello, World! 2024".data) :=
  ⟨by simp only [slugifyPre, collapseRuns_eq_aux]; decide,
   ((slugify_c3_amended ("Hello, World! 2024".data)).2.2.2
     (by simp only [slugifyPre, collapseRuns_eq_aux]; decide)).2⟩

/-! ## estimateReadTime (build-blog.js) -/

/-- Model of one global pass of `replace(/<[^>]+>/g, ' ')` except that the
replacement character is supplied by the caller later; this scanner
replaces each leftmost non-overlapping match of `<[^>]+>` by a single
space.  At a `<` it looks for the next `>`; a match needs at least one
character strictly between them, otherwise the engine moves on by one
position. -/
def stripTags : List Char → List Char
  | [] => []
  | c :: cs =>
    if c = '<' then
      match hrest : cs.dropWhile (fun d => !(d == '>')) with
      | '>' :: after =>
        if (cs.takeWhile (fun d => !(d == '>'))).isEmpty then c :: stripTags cs
        else ' ' :: stripTags after
      | _ => c :: stripTags cs
    else c :: stripTags cs
termination_by l => l.length
decreasing_by
  · exact Nat.lt_succ_self _
  · have h1 : ('>' :: after).length ≤ cs.length := by
      rw [← hrest]
      exact (List.dropWhile_suffix _).sublist.length_le
    simp only [List.length_cons] at h1 ⊢
    omega
  · exact Nat.lt_succ_self _
  · exact Nat.lt_succ_self _

/-- Model of `String.prototype.split(sep)` for a single-character
separator, as used by `text.split(' ')`: splitting the empty string gives
one empty piece, exactly as in JavaScript. -/
def splitCh (sep : Char) : List Char → List (List Char)
  | [] => [[]]
  | c :: cs =>
    if c = sep then [] :: splitCh sep cs
    else (splitCh sep cs).modifyHead (fun piece => c :: piece)

/-- Model of `Math.round(w / d)` for natural `w` and positive `d`:
`floor(w / d + 1 / 2)`.  (JavaScript computes this on doubles; the values
are exact for every realistic word count.) -/
def jsRoundDiv (w d : Nat) : Nat := (2 * w + d) / (2 * d)

/-- Embedding of `estimateReadTime` from `build-blog.js`: strip tags to
spaces, collapse whitespace runs, trim, split on single spaces, count the
pieces (`split(' ').length`), divide by 230 and round, floor at one
minute. -/
def estimateReadTime (html : String) : String :=
  let text := jsTrim (collapseRuns isJsSpace ' ' (stripTags html.data))
  let words := (splitCh ' ' text).length
  let minutes := Nat.max 1 (jsRoundDiv words 230)
  toString minutes ++ " min read"

/-- Specification-side read-time count, following the spec's words: replace
every HTML tag with a space, collapse whitespace runs to single spaces,
trim, count the space-separated tokens (the non-empty pieces), divide the
count by 230, round to the nearest integer (ties up), and take the maximum
with 1. -/
def readTimeMinutesSpec (html : String) : Nat :=
  let text := jsTrim (collapseRuns isJsSpace ' ' (stripTags html.data))
  let tokens := ((splitCh ' ' text).filter (fun piece => !piece.isEmpty)).length
  Nat.max 1 (jsRoundDiv tokens 230)

/-! ## Whitespace-structure facts feeding the C8 proof -/

theorem chain'_dropWhile {R : Char → Char → Prop} {p : Char → Bool} :
    ∀ {l : List Char}, l.Chain' R → (l.dropWhile p).Chain' R := by
  intro l
  induction l with
  | nil => intro h; exact h
  | cons c cs ih =>
    intro h
    cases hpc : p c with
    | true => rw [List.dropWhile_cons, if_pos (by simp [hpc])]; exact ih h.tail
    | false => rw [List.dropWhile_cons, if_neg (by simp [hpc])]; exact h

/-- The space-free relation on adjacent characters of the collapsed text. -/
def wsRel (a b : Char) : Prop := isJsSpace a = false ∨ isJsSpace b = false

theorem wsRel_symm (a b : Char) (h : wsRel a b) : wsRel b a := h.symm

theorem chain'_jsTrim_collapse (u : List Char) :
    (jsTrim (collapseRuns isJsSpace ' ' u)).Chain' wsRel := by
  unfold jsTrim
  exact chain'_reverse_of_symm wsRel_symm
    (chain'_dropWhile
      (chain'_reverse_of_symm wsRel_symm
        (chain'_dropWhile (chain'_collapseRuns isJsSpace ' ' u))))

theorem head?_jsTrim_false {l : List Char} {x : Char}
    (h : (jsTrim l).head? = some x) : isJsSpace x = false := by
  unfold jsTrim at h
  rw [List.head?_reverse] at h
  set w := (l.dropWhile isJsSpace).reverse.dropWhile isJsSpace with hw
  have hsuf : w <:+ (l.dropWhile isJsSpace).reverse := List.dropWhile_suffix _
  obtain ⟨pre, hpre⟩ := hsuf
  have hwne : w ≠ [] := by
    intro he
    rw [he] at h
    simp at h
  have h2 : (l.dropWhile isJsSpace).reverse.getLast? = some x := by
    rw [← hpre, List.getLast?_append_of_ne_nil _ hwne, h]
  rw [List.getLast?_reverse] at h2
  exact head?_dropWhile_false h2

theorem getLast?_jsTrim_false {l : List Char} {x : Char}
    (h : (jsTrim l).getLast? = some x) : isJsSpace x = false := by
  unfold jsTrim at h
  rw [List.getLast?_reverse] at h
  exact head?_dropWhile_false h

theorem splitCh_ne_nil (sep : Char) : ∀ l : List Char, splitCh sep l ≠ [] := by
  intro l
  induction l with
  | nil => simp [splitCh]
  | cons c cs ih =>
    by_cases hc : c = sep
    · simp [splitCh, hc]
    · simp only [splitCh, if_neg hc]
      cases hs : splitCh sep cs with
      | nil => exact absurd hs ih
      | cons q qs => simp

theorem splitCh_pieces_ne_nil {sep : Char} :
    ∀ (n : Nat) (l : List Char), l.length ≤ n → l ≠ [] →
      l.head? ≠ some sep → l.getLast? ≠ some sep →
      l.Chain' (fun a b => a ≠ sep ∨ b ≠ sep) →
      ∀ piece ∈ splitCh sep l, piece ≠ [] := by
  intro n
  induction n with
  | zero =>
    intro l hlen hne _ _ _
    rw [List.length_eq_zero.mp (Nat.le_zero.mp hlen)] at hne
    exact absurd rfl hne
  | succ n ih =>
    intro l hlen hne hhead hlast hch piece hmem
    match l with
    | [c] =>
      have hc : c ≠ sep := by
        intro he
        exact hhead (by simp [he])
      simp only [splitCh, if_neg hc, List.modifyHead_cons] at hmem
      simp only [List.mem_singleton] at hmem
      subst hmem
      simp
    | c :: d :: t =>
      have hc : c ≠ sep := by
        intro he
        exact hhead (by simp [he])
      rw [splitCh, if_neg hc] at hmem
      by_cases hd : d = sep
      · rw [splitCh, if_pos hd, List.modifyHead_cons] at hmem
        rcases List.mem_cons.mp hmem with h1 | h1
        · subst h1; simp
        · have htne : t ≠ [] := by
            intro he
            subst he
            exact hlast (by simp [hd])
          have hthead : t.head? ≠ some sep := by
            intro hth
            rcases (List.chain'_cons'.mp hch.tail).1 _ (Option.mem_def.mpr hth) with
              h2 | h2
            · exact h2 hd
            · exact h2 rfl
          have htlast : t.getLast? ≠ some sep := by
            match t, htne with
            | e :: t', _ =>
              rw [List.getLast?_cons_cons, List.getLast?_cons_cons] at hlast
              exact hlast
          have htlen : t.length ≤ n := by
            simp only [List.length_cons] at hlen
            omega
          exact ih t htlen htne hthead htlast hch.tail.tail piece h1
      · cases hs : splitCh sep (d :: t) with
        | nil => exact absurd hs (splitCh_ne_nil sep (d :: t))
        | cons q qs =>
          rw [hs, List.modifyHead_cons] at hmem
          have hall := ih (d :: t) (by simpa using hlen) (by simp)
            (by simpa using hd)
            (by rw [List.getLast?_cons_cons] at hlast; exact hlast)
            hch.tail
          rcases List.mem_cons.mp hmem with h1 | h1
          · subst h1; simp
          · exact hall piece (by rw [hs]; exact List.mem_cons_of_mem q h1)

/-- C8: for every HTML string, `estimateReadTime` prints exactly the
read-time minutes described by the spec: strip tags to spaces, collapse
and trim whitespace, count space-separated tokens, divide by 230, round to
nearest, floor at 1.  The code counts `split(' ').length` (which counts
one empty piece on the empty text), but after collapsing and trimming all
pieces are non-empty — and on the empty text both counts give 1 minute —
so the two procedures agree on every input. -/
theorem estimateReadTime_c8 (html : String) :
    estimateReadTime html = toString (readTimeMinutesSpec html) ++ " min read" := by
  have key : ∀ tl : List Char, tl.Chain' wsRel →
      tl.head? ≠ some ' ' → tl.getLast? ≠ some ' ' →
      Nat.max 1 (jsRoundDiv (splitCh ' ' tl).length 230) =
        Nat.max 1
          (jsRoundDiv ((splitCh ' ' tl).filter (fun piece => !piece.isEmpty)).length
            230) := by
    intro tl hch hhead hlast
    cases tl with
    | nil => decide
    | cons c cs =>
      have hch' : (c :: cs).Chain' (fun a b => a ≠ ' ' ∨ b ≠ ' ') := by
        refine hch.imp ?_
        intro a b hab
        rcases hab with h | h
        · exact Or.inl (by intro he; rw [he] at h; simp [isJsSpace] at h)
        · exact Or.inr (by intro he; rw [he] at h; simp [isJsSpace] at h)
      have hpieces := splitCh_pieces_ne_nil (c :: cs).length (c :: cs) le_rfl
        (by simp) hhead hlast hch'
      have hfilter : (splitCh ' ' (c :: cs)).filter (fun piece => !piece.isEmpty) =
          splitCh ' ' (c :: cs) := by
        rw [List.filter_eq_self]
        intro piece hp
        simpa using hpieces piece hp
      rw [hfilter]
  have hh : (jsTrim (collapseRuns isJsSpace ' ' (stripTags html.data))).head? ≠
      some ' ' := by
    intro hcon
    have := head?_jsTrim_false hcon
    simp [isJsSpace] at this
  have hl : (jsTrim (collapseRuns isJsSpace ' ' (stripTags html.data))).getLast? ≠
      some ' ' := by
    intro hcon
    have := getLast?_jsTrim_false hcon
    simp [isJsSpace] at this
  simp only [estimateReadTime, readTimeMinutesSpec]
  rw [key (jsTrim (collapseRuns isJsSpace ' ' (stripTags html.data)))
    (chain'_jsTrim_collapse _) hh hl]

/-! ## parseFilename (build-notebooks.js) -/

/-- The final path component, as extracted by node's `basename` (modelled
for `/`-separated paths). -/
def lastPathComponent (l : List Char) : List Char :=
  (l.reverse.takeWhile (fun c => !(c == '/'))).reverse

/-- Model of node's `basename(filename, '.ipynb')`: take the last path
component and strip one trailing `.ipynb` — unless the component *is*
`.ipynb`, which node keeps whole. -/
def nodeBasenameIpynb (filename : String) : List Char :=
  let base := lastPathComponent filename.data
  if base = ".ipynb".data then base
  else if ".ipynb".data.isSuffixOf base then base.take (base.length - 6)
  else base

/-- Model of `base.match(/^(\d{4}-\d{2}-\d{2})_(.+)$/)`: eleven fixed
positions (four digits, `-`, two digits, `-`, two digits, `_`) followed by
a non-empty remainder that `.` can match, i.e. free of line terminators
(`$` without the `m` flag only matches at the very end of the string). -/
def matchDateStem : List Char → Option (List Char × List Char)
  | y1 :: y2 :: y3 :: y4 :: h1 :: m1 :: m2 :: h2 :: d1 :: d2 :: u :: rest =>
    if y1.isDigit && y2.isDigit && y3.isDigit && y4.isDigit && h1 == '-' &&
       m1.isDigit && m2.isDigit && h2 == '-' && d1.isDigit && d2.isDigit &&
       u == '_' && !rest.isEmpty && rest.all (fun c => !isLineTerm c)
    then some ([y1, y2, y3, y4, h1, m1, m2, h2, d1, d2], rest)
    else none
  | _ => none

/-- Embedding of `parseFilename` from `build-notebooks.js`. -/
def parseFilename (filename : String) : String × String :=
  let base := nodeBasenameIpynb filename
  match matchDateStem base with
  | some (d, s) => (⟨d⟩, ⟨s⟩)
  | none => ("", ⟨base⟩)

theorem takeWhile_eq_self_of_all {p : Char → Bool} :
    ∀ {l : List Char}, (∀ c ∈ l, p c = true) → l.takeWhile p = l := by
  intro l
  induction l with
  | nil => intro _; rfl
  | cons c cs ih =>
    intro h
    rw [List.takeWhile_cons, if_pos (by simp [h c (List.mem_cons_self c cs)]),
      ih (fun x hx => h x (List.mem_cons_of_mem c hx))]

theorem lastPathComponent_eq_self {l : List Char} (h : ∀ c ∈ l, c ≠ '/') :
    lastPathComponent l = l := by
  unfold lastPathComponent
  rw [takeWhile_eq_self_of_all, List.reverse_reverse]
  intro c hc
  simp only [Bool.not_eq_true']
  exact beq_eq_false_iff_ne.mpr (h c (List.mem_reverse.mp hc))

/-- C7 counterexample: the filename `2024-01-01_a\nb.ipynb` has the claimed
shape (date digits, underscore, non-empty rest), yet `parseFilename`
returns an empty date with the whole stem as slug, because the regex `.`
cannot match the newline in the rest and `$` only anchors at the very end.
The claim asserts the date `2024-01-01` and slug `a\nb` are returned. -/
theorem parseFilename_c7_counterexample :
    parseFilename "2024-01-01_a\nb.ipynb" = ("", "2024-01-01_a\nb") ∧
    parseFilename "2024-01-01_a\nb.ipynb" ≠ ("2024-01-01", "a\nb") := by
  constructor <;> decide

/-- C7 (amended): for every filename of the form `YYYY-MM-DD_rest.ipynb`
whose rest is non-empty, free of line terminators, and free of path
separators, `parseFilename` returns exactly that date and that rest (the
`.ipynb` extension is stripped by `basename`; any other extension stays
part of the slug); and for every filename whose base name does not match
the date pattern, it returns an empty date with the base name as slug. -/
theorem parseFilename_c7_amended :
    (∀ (y1 y2 y3 y4 m1 m2 d1 d2 : Char) (rest : List Char),
      y1.isDigit = true → y2.isDigit = true → y3.isDigit = true →
      y4.isDigit = true → m1.isDigit = true → m2.isDigit = true →
      d1.isDigit = true → d2.isDigit = true →
      rest ≠ [] → (∀ c ∈ rest, isLineTerm c = false) → (∀ c ∈ rest, c ≠ '/') →
      parseFilename
          ⟨[y1, y2, y3, y4, '-', m1, m2, '-', d1, d2, '_'] ++ rest ++
            ".ipynb".data⟩ =
        (⟨[y1, y2, y3, y4, '-', m1, m2, '-', d1, d2]⟩, ⟨rest⟩)) ∧
    (∀ filename : String, matchDateStem (nodeBasenameIpynb filename) = none →
      parseFilename filename = ("", ⟨nodeBasenameIpynb filename⟩)) := by
  constructor
  · intro y1 y2 y3 y4 m1 m2 d1 d2 rest hy1 hy2 hy3 hy4 hm1 hm2 hd1 hd2
      hne hterm hslash
    have hdig : ∀ c : Char, c.isDigit = true → c ≠ '/' := by
      intro c h he
      rw [he] at h
      exact absurd h (by decide)
    have hnoslash :
        ∀ c ∈ [y1, y2, y3, y4, '-', m1, m2, '-', d1, d2, '_'] ++ rest ++
          ".ipynb".data, c ≠ '/' := by
      intro c hc
      rcases List.mem_append.mp hc with h | h
      · rcases List.mem_append.mp h with h | h
        · simp only [List.mem_cons, List.not_mem_nil, or_false] at h
          rcases h with h|h|h|h|h|h|h|h|h|h|h
          · exact h ▸ hdig y1 hy1
          · exact h ▸ hdig y2 hy2
          · exact h ▸ hdig y3 hy3
          · exact h ▸ hdig y4 hy4
          · rw [h]; decide
          · exact h ▸ hdig m1 hm1
          · exact h ▸ hdig m2 hm2
          · rw [h]; decide
          · exact h ▸ hdig d1 hd1
          · exact h ▸ hdig d2 hd2
          · rw [h]; decide
        · exact hslash c h
      · intro he
        rw [he] at h
        exact absurd h (by decide)
    have hbase :
        nodeBasenameIpynb
            ⟨[y1, y2, y3, y4, '-', m1, m2, '-', d1, d2, '_'] ++ rest ++
              ".ipynb".data⟩ =
          [y1, y2, y3, y4, '-', m1, m2, '-', d1, d2, '_'] ++ rest := by
      unfold nodeBasenameIpynb
      rw [lastPathComponent_eq_self hnoslash]
      rw [if_neg (by
        intro h
        have := congrArg List.length h
        simp [List.length_append] at this)]
      rw [if_pos (by rw [List.isSuffixOf]; simp)]
      have hlen :
          ([y1, y2, y3, y4, '-', m1, m2, '-', d1, d2, '_'] ++ rest ++
            ".ipynb".data).length - 6 =
          ([y1, y2, y3, y4, '-', m1, m2, '-', d1, d2, '_'] ++ rest).length := by
        simp [List.length_append]
      rw [hlen, List.take_left]
    simp only [parseFilename]
    rw [hbase]
    have hmatch :
        matchDateStem ([y1, y2, y3, y4, '-', m1, m2, '-', d1, d2, '_'] ++ rest) =
          some ([y1, y2, y3, y4, '-', m1, m2, '-', d1, d2], rest) := by
      simp only [List.cons_append, List.nil_append, matchDateStem]
      rw [if_pos]
      simp only [hy1, hy2, hy3, hy4, hm1, hm2, hd1, hd2, Bool.and_eq_true,
        beq_self_eq_true, Bool.not_eq_true', List.all_eq_true]
      refine ⟨⟨by simp, by simpa using hne⟩, ?_⟩
      intro c hc
      simp [hterm c hc]
    rw [hmatch]
  · intro filename hnone
    simp only [parseFilename]
    rw [hnone]

/-- Witness for `parseFilename_c7_amended`: the date-prefixed notebook
filename `2025-03-04_intro.ipynb` parses into its date and slug. -/
theorem parseFilename_c7_amended_witness :
    parseFilename "2025-03-04_intro.ipynb" = ("2025-03-04", "intro") := by
  have h := (parseFilename_c7_amended).1 '2' '0' '2' '5' '0' '3' '0' '4'
    "intro".data (by decide) (by decide) (by decide) (by decide) (by decide)
    (by decide) (by decide) (by decide) (by decide) (by decide) (by decide)
  have he : ("2025-03-04_intro.ipynb" : String) =
      ⟨['2', '0', '2', '5', '-', '0', '3', '-', '0', '4', '_'] ++
        "intro".data ++ ".ipynb".data⟩ := by decide
  rw [he]
  have he2 : ("2025-03-04" : String) =
      ⟨['2', '0', '2', '5', '-', '0', '3', '-', '0', '4']⟩ := by decide
  have he3 : ("intro" : String) = ⟨"intro".data⟩ := by decide
  rw [he2, he3]
  exact h

/-! ## A model of JSON values and JSON.parse

Numbers are kept as their source lexemes rather than converted to
floating-point doubles; no claim in this development depends on numeric
value arithmetic, only on truthiness, which is decided from the lexeme. -/

inductive Json where
  | null
  | bool (b : Bool)
  | num (lexeme : String)
  | str (s : String)
  | arr (elems : List Json)
  | obj (fields : List (String × Json))

/-- Whitespace accepted by JSON (strictly smaller than the regex `\s`). -/
def jsonWsChar (c : Char) : Bool :=
  c == ' ' || c == '\t' || c == '\n' || c == '\r'

def skipJsonWs (l : List Char) : List Char := l.dropWhile jsonWsChar

def lbrace : Char := Char.ofNat 123

def rbrace : Char := Char.ofNat 125

def squote : Char := Char.ofNat 39

def hexVal (c : Char) : Option Nat :=
  if '0' ≤ c ∧ c ≤ '9' then some (c.toNat - 48)
  else if 'a' ≤ c ∧ c ≤ 'f' then some (c.toNat - 87)
  else if 'A' ≤ c ∧ c ≤ 'F' then some (c.toNat - 55)
  else none

/-- JSON string body parser (after the opening quote): returns the decoded
characters and the remainder after the closing quote.  `\uXXXX` surrogate
pairs are combined; a lone surrogate (representable in a JavaScript string
but not in a Lean `Char`) is modelled as U+FFFD.  The fuel argument only
drives the recursion; every step consumes input, so `length + 1` fuel
never runs out before the string ends. -/
def pStringCharsF : Nat → List Char → Option (List Char × List Char)
  | 0, _ => none
  | _ + 1, [] => none
  | fuel + 1, c :: cs =>
    if c == '"' then some ([], cs)
    else if c == '\\' then
      match cs with
      | [] => none
      | e :: cs2 =>
        if e == '"' then (pStringCharsF fuel cs2).map (fun r => ('"' :: r.1, r.2))
        else if e == '\\' then
          (pStringCharsF fuel cs2).map (fun r => ('\\' :: r.1, r.2))
        else if e == '/' then
          (pStringCharsF fuel cs2).map (fun r => ('/' :: r.1, r.2))
        else if e == 'b' then
          (pStringCharsF fuel cs2).map (fun r => (Char.ofNat 8 :: r.1, r.2))
        else if e == 'f' then
          (pStringCharsF fuel cs2).map (fun r => (Char.ofNat 12 :: r.1, r.2))
        else if e == 'n' then
          (pStringCharsF fuel cs2).map (fun r => ('\n' :: r.1, r.2))
        else if e == 'r' then
          (pStringCharsF fuel cs2).map (fun r => ('\r' :: r.1, r.2))
        else if e == 't' then
          (pStringCharsF fuel cs2).map (fun r => ('\t' :: r.1, r.2))
        else if e == 'u' then
          match cs2 with
          | h1 :: h2 :: h3 :: h4 :: cs3 =>
            match hexVal h1, hexVal h2, hexVal h3, hexVal h4 with
            | some v1, some v2, some v3, some v4 =>
              let code := 4096 * v1 + 256 * v2 + 16 * v3 + v4
              if 0xD800 ≤ code ∧ code ≤ 0xDBFF then
                match cs3 with
                | b1 :: b2 :: g1 :: g2 :: g3 :: g4 :: cs4 =>
                  if b1 == '\\' && b2 == 'u' then
                    match hexVal g1, hexVal g2, hexVal g3, hexVal g4 with
                    | some w1, some w2, some w3, some w4 =>
                      let low := 4096 * w1 + 256 * w2 + 16 * w3 + w4
                      if 0xDC00 ≤ low ∧ low ≤ 0xDFFF then
                        (pStringCharsF fuel cs4).map (fun r =>
                          (Char.ofNat
                              (0x10000 + (code - 0xD800) * 1024 + (low - 0xDC00)) ::
                            r.1, r.2))
                      else (pStringCharsF fuel cs3).map (fun r =>
                        (Char.ofNat 0xFFFD :: r.1, r.2))
                    | _, _, _, _ => (pStringCharsF fuel cs3).map (fun r =>
                        (Char.ofNat 0xFFFD :: r.1, r.2))
                  else (pStringCharsF fuel cs3).map (fun r =>
                    (Char.ofNat 0xFFFD :: r.1, r.2))
                | _ => (pStringCharsF fuel cs3).map (fun r =>
                    (Char.ofNat 0xFFFD :: r.1, r.2))
              else if 0xDC00 ≤ code ∧ code ≤ 0xDFFF then
                (pStringCharsF fuel cs3).map (fun r => (Char.ofNat 0xFFFD :: r.1, r.2))
              else
                (pStringCharsF fuel cs3).map (fun r => (Char.ofNat code :: r.1, r.2))
            | _, _, _, _ => none
          | _ => none
        else none
    else if c.toNat < 32 then none
    else (pStringCharsF fuel cs).map (fun r => (c :: r.1, r.2))

/-- JSON string body parser with adequate fuel. -/
def pStringChars (l : List Char) : Option (List Char × List Char) :=
  pStringCharsF (l.length + 1) l

/-- Fraction and exponent continuation of a JSON number lexeme.  When a
`.`/`e` is not followed by digits it is left unconsumed; the parse then
fails at the caller exactly where `JSON.parse` reports its error, since a
stray `.` or letter can never continue a JSON document after a value. -/
def pNumAfterInt (acc : List Char) (l : List Char) : List Char × List Char :=
  let step1 : List Char × List Char :=
    match l with
    | '.' :: t =>
      let ds := t.takeWhile Char.isDigit
      if ds.isEmpty then (acc, l)
      else (acc ++ '.' :: ds, t.dropWhile Char.isDigit)
    | _ => (acc, l)
  match step1.2 with
  | e :: t =>
    if e == 'e' || e == 'E' then
      let hasSign := match t with
        | s :: _ => s == '+' || s == '-'
        | [] => false
      let t1 := if hasSign then t.tail else t
      let sgn : List Char := if hasSign then [t.headD 'x'] else []
      let ds := t1.takeWhile Char.isDigit
      if ds.isEmpty then step1
      else (step1.1 ++ e :: (sgn ++ ds), t1.dropWhile Char.isDigit)
    else step1
  | [] => step1

/-- JSON number lexer: optional minus, integer part (`0` or nonzero-led
digits), optional fraction, optional exponent. -/
def pNumLex (l : List Char) : Option (List Char × List Char) :=
  let signed := l.head? == some '-'
  let sign : List Char := if signed then ['-'] else []
  let l1 := if signed then l.tail else l
  match l1 with
  | [] => none
  | c :: t =>
    if c == '0' then some (pNumAfterInt (sign ++ ['0']) t)
    else if c.isDigit then
      some (pNumAfterInt (sign ++ c :: t.takeWhile Char.isDigit)
        (t.dropWhile Char.isDigit))
    else none

mutual

/-- JSON value parser; expects its input to start at a non-whitespace
character and returns the remainder.  Fuel bounds the recursion depth. -/
def pValue : Nat → List Char → Option (Json × List Char)
  | 0, _ => none
  | _ + 1, [] => none
  | fuel + 1, c :: cs =>
    if c == lbrace then
      match skipJsonWs cs with
      | d :: ds =>
        if d == rbrace then some (.obj [], ds)
        else (pObjFields fuel (d :: ds)).map (fun r => (.obj r.1, r.2))
      | [] => none
    else if c == '[' then
      match skipJsonWs cs with
      | d :: ds =>
        if d == ']' then some (.arr [], ds)
        else (pArrElems fuel (d :: ds)).map (fun r => (.arr r.1, r.2))
      | [] => none
    else if c == '"' then (pStringChars cs).map (fun r => (.str ⟨r.1⟩, r.2))
    else if c == 't' then
      match cs with
      | 'r' :: 'u' :: 'e' :: rest => some (.bool true, rest)
      | _ => none
    else if c == 'f' then
      match cs with
      | 'a' :: 'l' :: 's' :: 'e' :: rest => some (.bool false, rest)
      | _ => none
    else if c == 'n' then
      match cs with
      | 'u' :: 'l' :: 'l' :: rest => some (.null, rest)
      | _ => none
    else
      (pNumLex (c :: cs)).map (fun r => (.num ⟨r.1⟩, r.2))

/-- Array elements after `[` (first element position, whitespace already
skipped, and the array known to be non-empty). -/
def pArrElems : Nat → List Char → Option (List Json × List Char)
  | 0, _ => none
  | fuel + 1, l =>
    match pValue fuel l with
    | none => none
    | some (v, r) =>
      match skipJsonWs r with
      | ',' :: r2 => (pArrElems fuel (skipJsonWs r2)).map (fun p => (v :: p.1, p.2))
      | ']' :: r2 => some ([v], r2)
      | _ => none

/-- Object members after the opening brace (first key position, whitespace
already skipped, and the object known to be non-empty). -/
def pObjFields : Nat → List Char → Option (List (String × Json) × List Char)
  | 0, _ => none
  | fuel + 1, l =>
    match l with
    | c :: cs =>
      if c == '"' then
        match pStringChars cs with
        | none => none
        | some (k, r) =>
          match skipJsonWs r with
          | ':' :: r2 =>
            match pValue fuel (skipJsonWs r2) with
            | none => none
            | some (v, r3) =>
              match skipJsonWs r3 with
              | ',' :: r4 =>
                (pObjFields fuel (skipJsonWs r4)).map
                  (fun p => ((⟨k⟩, v) :: p.1, p.2))
              | d :: r4 => if d == rbrace then some ([(⟨k⟩, v)], r4) else none
              | [] => none
          | _ => none
      else none
    | [] => none

end

/-- Model of `JSON.parse`: returns `none` where `JSON.parse` throws. -/
def jsonParse (s : String) : Option Json :=
  match pValue (s.data.length + 2) (skipJsonWs s.data) with
  | some (v, rest) => if (skipJsonWs rest).isEmpty then some v else none
  | none => none

/-- A JSON number lexeme denotes zero exactly when every digit of its
mantissa (the part before any exponent) is `0`. -/
def jsonNumLexIsZero (lx : String) : Bool :=
  (lx.data.takeWhile (fun c => !(c == 'e' || c == 'E'))).all
    (fun c => !c.isDigit || c == '0')

/-- JavaScript truthiness of a JSON value. -/
def jsTruthy : Json → Bool
  | .null => false
  | .bool b => b
  | .num lx => !(jsonNumLexIsZero lx)
  | .str s => !s.isEmpty
  | .arr _ => true
  | .obj _ => true

/-- Property lookup on a parsed object: with duplicate keys the last
occurrence wins, matching the JavaScript object built by `JSON.parse`. -/
def jLookup (kvs : List (String × Json)) (k : String) : Option Json :=
  (kvs.reverse.find? (fun p => p.1 == k)).map (fun p => p.2)

/-- Property access `j[k]` for a JSON value; non-objects yield `undefined`
(modelled as `none`).  Accessing a property of `null` throws and is
handled at each use site. -/
def getField : Json → String → Option Json
  | .obj kvs, k => jLookup kvs k
  | _, _ => none

mutual

/-- Model of JavaScript `String(x)` coercion on JSON values (number
lexemes are kept as written; JavaScript would re-format the double). -/
def jsToString : Json → String
  | .null => "null"
  | .bool true => "true"
  | .bool false => "false"
  | .num lx => lx
  | .str s => s
  | .arr xs => jsArrToString xs
  | .obj _ => "[object Object]"

/-- Model of `Array.prototype.toString` (`join(',')`): `null` elements
become empty strings. -/
def jsArrToString : List Json → String
  | [] => ""
  | [x] =>
    match x with
    | .null => ""
    | v => jsToString v
  | x :: xs =>
    (match x with
     | .null => ""
     | v => jsToString v) ++ "," ++ jsArrToString xs

end

/-- Model of `array.join(sep)` over JSON elements (`null` joins as ""). -/
def jsJoinWith (sep : String) (xs : List Json) : String :=
  String.intercalate sep
    (xs.map (fun x =>
      match x with
      | .null => ""
      | v => jsToString v))

/-! ## parseFrontmatter (build-notebooks.js) -/

/-- Leftmost split of the input around the first occurrence of `pat`,
returning the part before it and the part after it. -/
def splitAtSub (pat : List Char) : List Char → Option (List Char × List Char)
  | [] => if pat.isEmpty then some ([], []) else none
  | c :: cs =>
    if pat.isPrefixOf (c :: cs) then some ([], (c :: cs).drop pat.length)
    else (splitAtSub pat cs).map (fun r => (c :: r.1, r.2))

def nlDashes : List Char := ['\n', '-', '-', '-']

/-- Candidate positions for the `\n` of `^---\s*\n`: the regex engine's
greedy `\s*` backtracks from the longest whitespace run, so the newline
positions inside the leading whitespace run are tried in descending
order. -/
def fmNlCandidates (t : List Char) : List Nat :=
  ((List.range (t.takeWhile isJsSpace).length).filter
    (fun k => t[k]? == some '\n')).reverse

def fmTryCandidates (t : List Char) : List Nat → Option (List Char)
  | [] => none
  | k :: ks =>
    match splitAtSub nlDashes (t.drop (k + 1)) with
    | some (body, _) => some body
    | none => fmTryCandidates t ks

/-- Model of matching `text` against the anchored frontmatter regex
`^---\s*\n([\s\S]*?)\n---`: the captured frontmatter body (the lazy group
stops at the first following newline-plus-three-dashes). -/
def fmBlock (text : List Char) : Option (List Char) :=
  if "---".data.isPrefixOf text then
    fmTryCandidates (text.drop 3) (fmNlCandidates (text.drop 3))
  else none

/-- Model of matching one line against `^(\w+)\s*:\s*(.+)$`: the key is
the maximal leading `\w` run; after optional whitespace a literal `:`
must follow; greedy `\s*` then leaves the value as the rest of the line,
which `(.+)$` accepts only if it is non-empty and free of line
terminators (for an all-whitespace rest the engine backtracks to the
longest terminator-free suffix). -/
def fmKv (line : List Char) : Option (List Char × List Char) :=
  let key := line.takeWhile isWordChar
  let afterKey := line.dropWhile isWordChar
  if key.isEmpty then none
  else
    match afterKey.dropWhile isJsSpace with
    | c :: rest =>
      if c == ':' then
        let tail := rest.dropWhile isJsSpace
        if tail.isEmpty then
          let v := (rest.reverse.takeWhile (fun d => !isLineTerm d)).reverse
          if v.isEmpty then none else some (key, v)
        else if tail.any isLineTerm then none
        else some (key, tail)
      else none
    | [] => none

/-- Value processing in `parseFrontmatter`: trim, strip one layer of
matching surrounding quotes, then try `JSON.parse` on bracket-delimited
values, keeping the raw string when the parse fails. -/
def fmProcessValue (v : List Char) : Json :=
  let tv := jsTrim v
  let qv :=
    if (tv.head? == some '"' && tv.getLast? == some '"') ||
       (tv.head? == some squote && tv.getLast? == some squote) then
      (tv.drop 1).dropLast
    else tv
  if qv.head? == some '[' && qv.getLast? == some ']' then
    match jsonParse ⟨qv⟩ with
    | some j => j
    | none => .str ⟨qv⟩
  else .str ⟨qv⟩

/-- Model of `meta[key] = value` on a JavaScript object: overwrite the
existing key in place, otherwise append. -/
def fmUpsert (m : List (String × Json)) (k : String) (v : Json) :
    List (String × Json) :=
  if m.any (fun p => p.1 == k) then
    m.map (fun p => if p.1 == k then (k, v) else p)
  else m ++ [(k, v)]

/-- Embedding of `parseFrontmatter` from `build-notebooks.js`. -/
def parseFrontmatter (text : String) : List (String × Json) :=
  match fmBlock text.data with
  | none => []
  | some body =>
    (splitCh '\n' body).foldl
      (fun m line =>
        match fmKv line with
        | none => m
        | some (k, v) => fmUpsert m ⟨k⟩ (fmProcessValue v))
      []

/-! ## Facts feeding the C6 proof -/

theorem toNat_facts_of_isWordChar {c : Char} (h : isWordChar c = true) :
    (65 ≤ c.toNat ∧ c.toNat ≤ 90) ∨ (97 ≤ c.toNat ∧ c.toNat ≤ 122) ∨
    (48 ≤ c.toNat ∧ c.toNat ≤ 57) ∨ c.toNat = 95 := by
  simp only [isWordChar, Char.isAlpha, Char.isUpper, Char.isLower, Char.isDigit,
    Bool.or_eq_true, Bool.and_eq_true, decide_eq_true_eq, beq_iff_eq] at h
  rcases h with ((⟨h1, h2⟩ | ⟨h1, h2⟩) | ⟨h1, h2⟩) | h
  · exact Or.inl ⟨UInt32.le_def.mp h1, UInt32.le_def.mp h2⟩
  · exact Or.inr (Or.inl ⟨UInt32.le_def.mp h1, UInt32.le_def.mp h2⟩)
  · exact Or.inr (Or.inr (Or.inl ⟨UInt32.le_def.mp h1, UInt32.le_def.mp h2⟩))
  · subst h; decide

theorem isJsSpace_eq_false_of_isWordChar {c : Char} (h : isWordChar c = true) :
    isJsSpace c = false := by
  cases hsp : isJsSpace c with
  | false => rfl
  | true =>
    exfalso
    have h1 := toNat_facts_of_isWordChar h
    have h2 := toNat_facts_of_isJsSpace hsp
    omega

theorem takeWhile_append_of {p : Char → Bool} {l2 : List Char}
    (hhd : ∀ x, l2.head? = some x → p x = false) :
    ∀ {l1 : List Char}, (∀ c ∈ l1, p c = true) →
      (l1 ++ l2).takeWhile p = l1 := by
  intro l1
  induction l1 with
  | nil =>
    intro _
    cases l2 with
    | nil => rfl
    | cons x xs =>
      simp only [List.nil_append, List.takeWhile_cons, hhd x rfl]
      rfl
  | cons c cs ih =>
    intro h
    simp only [List.cons_append, List.takeWhile_cons,
      h c (List.mem_cons_self c cs), if_pos]
    rw [ih (fun x hx => h x (List.mem_cons_of_mem c hx))]

theorem dropWhile_append_of {p : Char → Bool} {l2 : List Char}
    (hhd : ∀ x, l2.head? = some x → p x = false) :
    ∀ {l1 : List Char}, (∀ c ∈ l1, p c = true) →
      (l1 ++ l2).dropWhile p = l2 := by
  intro l1
  induction l1 with
  | nil =>
    intro _
    simp only [List.nil_append]
    exact dropWhile_eq_self_of_head hhd
  | cons c cs ih =>
    intro h
    simp only [List.cons_append, List.dropWhile_cons,
      h c (List.mem_cons_self c cs), if_pos]
    exact ih (fun x hx => h x (List.mem_cons_of_mem c hx))

theorem splitCh_eq_single {sep : Char} :
    ∀ {l : List Char}, (∀ c ∈ l, c ≠ sep) → splitCh sep l = [l] := by
  intro l
  induction l with
  | nil => intro _; rfl
  | cons c cs ih =>
    intro h
    rw [splitCh, if_neg (h c (List.mem_cons_self c cs)),
      ih (fun x hx => h x (List.mem_cons_of_mem c hx)), List.modifyHead_cons]


theorem splitAtSub_nlDashes {rest' : List Char} :
    ∀ {body : List Char}, (∀ c ∈ body, c ≠ '\n') →
      splitAtSub nlDashes (body ++ '\n' :: '-' :: '-' :: '-' :: rest') =
        some (body, rest') := by
  intro body
  induction body with
  | nil =>
    intro _
    simp [splitAtSub, nlDashes, List.isPrefixOf]
  | cons c cs ih =>
    intro h
    have hc : c ≠ '\n' := h c (List.mem_cons_self c cs)
    rw [List.cons_append, splitAtSub,
      if_neg (by
        simp only [nlDashes, List.isPrefixOf, Bool.and_eq_true, beq_iff_eq]
        intro hcontra
        exact hc hcontra.1.symm),
      ih (fun x hx => h x (List.mem_cons_of_mem c hx))]
    rfl

theorem jsTrim_eq_self {l : List Char}
    (hh : ∀ x, l.head? = some x → isJsSpace x = false)
    (hl : ∀ x, l.getLast? = some x → isJsSpace x = false) :
    jsTrim l = l := by
  unfold jsTrim
  rw [dropWhile_eq_self_of_head hh,
    dropWhile_eq_self_of_head (by
      intro x hx
      rw [List.head?_reverse] at hx
      exact hl x hx),
    List.reverse_reverse]

/-- C6: for every frontmatter block `---\nkey:value\n---` whose value is a
bracket-delimited literal, `parseFrontmatter` maps the key to the result
of `JSON.parse` on the value when that parse succeeds (so a syntactically
valid JSON array round-trips to the parsed array), and maps the key to the
raw value string, without throwing, when the parse fails. -/
theorem parseFrontmatter_c6 (k : String) (V : List Char)
    (hk : k.data ≠ []) (hkw : ∀ c ∈ k.data, isWordChar c = true)
    (hV1 : V.head? = some '[') (hV2 : V.getLast? = some ']')
    (hVt : ∀ c ∈ V, isLineTerm c = false) :
    (∀ a : List Json, jsonParse ⟨V⟩ = some (Json.arr a) →
      parseFrontmatter ⟨"---\n".data ++ k.data ++ ':' :: V ++ "\n---".data⟩ =
        [(k, Json.arr a)]) ∧
    (jsonParse ⟨V⟩ = none →
      parseFrontmatter ⟨"---\n".data ++ k.data ++ ':' :: V ++ "\n---".data⟩ =
        [(k, Json.str ⟨V⟩)]) := by
  obtain ⟨kc, k', hkdata⟩ := List.exists_cons_of_ne_nil hk
  have hVne : V ≠ [] := by
    intro he
    rw [he] at hV1
    simp at hV1
  have hkcw : isJsSpace kc = false :=
    isJsSpace_eq_false_of_isWordChar
      (hkw kc (by rw [hkdata]; exact List.mem_cons_self _ _))
  have hknl : ∀ c ∈ k.data, c ≠ '\n' := by
    intro c hc he
    have := hkw c hc
    rw [he] at this
    exact absurd this (by decide)
  have hVnl : ∀ c ∈ V, c ≠ '\n' := by
    intro c hc he
    have := hVt c hc
    rw [he] at this
    exact absurd this (by decide)
  have hbodynl : ∀ c ∈ k.data ++ ':' :: V, c ≠ '\n' := by
    intro c hc
    rcases List.mem_append.mp hc with h | h
    · exact hknl c h
    · rcases List.mem_cons.mp h with h | h
      · rw [h]; decide
      · exact hVnl c h
  have hblock :
      fmBlock ("---\n".data ++ k.data ++ ':' :: V ++ "\n---".data) =
        some (k.data ++ ':' :: V) := by
    unfold fmBlock
    rw [if_pos (by
      rw [show ("---\n".data ++ k.data ++ ':' :: V ++ "\n---".data : List Char) =
        '-' :: '-' :: '-' :: ('\n' :: (k.data ++ ':' :: V ++ "\n---".data))
        by simp]
      rw [show ("---".data : List Char) = ['-', '-', '-'] from rfl]
      simp [List.isPrefixOf])]
    rw [show ("---\n".data ++ k.data ++ ':' :: V ++ "\n---".data).drop 3 =
        '\n' :: (k.data ++ ':' :: V ++ "\n---".data) by
      rw [show ("---\n".data ++ k.data ++ ':' :: V ++ "\n---".data : List Char) =
        '-' :: '-' :: '-' :: ('\n' :: (k.data ++ ':' :: V ++ "\n---".data))
        by simp]
      rfl]
    have hcands :
        fmNlCandidates ('\n' :: (k.data ++ ':' :: V ++ "\n---".data)) = [0] := by
      unfold fmNlCandidates
      rw [show ('\n' :: (k.data ++ ':' :: V ++ "\n---".data)).takeWhile isJsSpace =
          ['\n'] by
        rw [List.takeWhile_cons, if_pos (by decide)]
        rw [show (k.data ++ ':' :: V ++ "\n---".data : List Char) =
          kc :: (k' ++ ':' :: V ++ "\n---".data) by rw [hkdata]; simp]
        rw [List.takeWhile_cons, if_neg (by simp [hkcw])]]
      rw [show List.range (['\n'] : List Char).length = [0] from rfl]
      simp
    rw [hcands]
    simp only [fmTryCandidates]
    rw [show ('\n' :: (k.data ++ ':' :: V ++ "\n---".data)).drop (0 + 1) =
        (k.data ++ ':' :: V) ++ '\n' :: '-' :: '-' :: '-' :: [] by
      rw [show ("\n---".data : List Char) = '\n' :: '-' :: '-' :: '-' :: []
        from rfl]
      simp]
    rw [splitAtSub_nlDashes hbodynl]
  have hkv : fmKv (k.data ++ ':' :: V) = some (k.data, V) := by
    have hcolhead : ∀ x : Char, (':' :: V).head? = some x → isWordChar x = false := by
      intro x hx
      simp only [List.head?_cons, Option.some.injEq] at hx
      rw [← hx]; decide
    have htakekey : (k.data ++ ':' :: V).takeWhile isWordChar = k.data :=
      takeWhile_append_of hcolhead hkw
    have hdropkey : (k.data ++ ':' :: V).dropWhile isWordChar = ':' :: V :=
      dropWhile_append_of hcolhead hkw
    have hVw : ∀ x, V.head? = some x → isJsSpace x = false := by
      intro x hx
      rw [hV1] at hx
      simp only [Option.some.injEq] at hx
      rw [← hx]; decide
    unfold fmKv
    rw [htakekey, hdropkey]
    rw [if_neg (by simp [hkdata])]
    rw [show (':' :: V).dropWhile isJsSpace = ':' :: V from
      dropWhile_eq_self_of_head (by
        intro x hx
        simp only [List.head?_cons, Option.some.injEq] at hx
        rw [← hx]; decide)]
    simp only [beq_self_eq_true, if_pos]
    rw [dropWhile_eq_self_of_head hVw]
    rw [if_neg (by simpa using hVne)]
    rw [if_neg (by
      simp only [List.any_eq_true, not_exists]
      rintro x ⟨hx1, hx2⟩
      rw [hVt x hx1] at hx2
      exact absurd hx2 (by simp))]
  have htrim : jsTrim V = V := by
    apply jsTrim_eq_self
    · intro x hx
      rw [hV1] at hx
      simp only [Option.some.injEq] at hx
      rw [← hx]; decide
    · intro x hx
      rw [hV2] at hx
      simp only [Option.some.injEq] at hx
      rw [← hx]; decide
  have hqv : fmProcessValue V =
      (match jsonParse ⟨V⟩ with
        | some j => j
        | none => Json.str ⟨V⟩) := by
    have hqcond : ¬((V.head? == some '"' && V.getLast? == some '"' ||
        V.head? == some squote && V.getLast? == some squote) = true) := by
      rw [hV1, hV2]; decide
    have hqvterm : (if (V.head? == some '"' && V.getLast? == some '"' ||
        V.head? == some squote && V.getLast? == some squote) = true then
          (V.drop 1).dropLast
        else V) = V := if_neg hqcond
    simp only [fmProcessValue, htrim]
    rw [hqvterm, if_pos (by rw [hV1, hV2]; decide)]
  have hmk : (⟨k.data⟩ : String) = k := rfl
  have hmain :
      parseFrontmatter ⟨"---\n".data ++ k.data ++ ':' :: V ++ "\n---".data⟩ =
        [(k, fmProcessValue V)] := by
    unfold parseFrontmatter
    rw [show (String.data ⟨"---\n".data ++ k.data ++ ':' :: V ++ "\n---".data⟩ :
        List Char) = "---\n".data ++ k.data ++ ':' :: V ++ "\n---".data from rfl]
    rw [hblock]
    rw [show (match (some (k.data ++ ':' :: V) : Option (List Char)) with
        | none => ([] : List (String × Json))
        | some body =>
          (splitCh '\n' body).foldl
            (fun m line =>
              match fmKv line with
              | none => m
              | some (kk, v) => fmUpsert m ⟨kk⟩ (fmProcessValue v))
            []) =
        (splitCh '\n' (k.data ++ ':' :: V)).foldl
          (fun m line =>
            match fmKv line with
            | none => m
            | some (kk, v) => fmUpsert m ⟨kk⟩ (fmProcessValue v))
          [] from rfl]
    rw [splitCh_eq_single hbodynl]
    simp only [List.foldl_cons, List.foldl_nil]
    rw [hkv]
    simp only [fmUpsert, List.any_nil, Bool.false_eq_true, if_neg,
      List.nil_append, hmk, if_false]
  constructor
  · intro a hpa
    rw [hmain, hqv, hpa]
  · intro hpn
    rw [hmain, hqv, hpn]

/-- Witness for `parseFrontmatter_c6`: the spec's own frontmatter `tags`
key with a JSON array literal value parses to the array. -/
theorem parseFrontmatter_c6_witness :
    parseFrontmatter "---\ntags:[\"a\", \"b\"]\n---" =
      [("tags", Json.arr [Json.str "a", Json.str "b"])] := by
  have h := (parseFrontmatter_c6 "tags" "[\"a\", \"b\"]".data
    (by decide) (by decide) (by decide) (by decide) (by decide)).1
    [Json.str "a", Json.str "b"] rfl
  have he : ("---\ntags:[\"a\", \"b\"]\n---" : String) =
      ⟨"---\n".data ++ "tags".data ++ ':' :: "[\"a\", \"b\"]".data ++
        "\n---".data⟩ := by decide
  rw [he]
  exact h

/-! ## The feed ingester (documented blog build script)

The repository holds a legacy copy of `build-blog.js` without
sanitization and the documented copy whose `parseItem` sanitizes the post
content with DOMPurify; the specification describes the latter, and this
embedding follows it. -/

/-- Case-insensitive prefix test, modelling a regex literal under the `i`
flag (both sides are case-folded with ASCII `toLower`, which agrees with
the regex's simple case folding on the ASCII tag names used here). -/
def ciPrefix : List Char → List Char → Bool
  | [], _ => true
  | _ :: _, [] => false
  | p :: ps, c :: cs => (p.toLower == c.toLower) && ciPrefix ps cs

/-- Leftmost case-insensitive split around the first occurrence of `pat`:
the model of a lazy group followed by the literal `pat`. -/
def splitAtSubCI (pat : List Char) : List Char → Option (List Char × List Char)
  | [] => if pat.isEmpty then some ([], []) else none
  | c :: cs =>
    if ciPrefix pat (c :: cs) then some ([], (c :: cs).drop pat.length)
    else (splitAtSubCI pat cs).map (fun r => (c :: r.1, r.2))

/-- Attempt to match the tag-extraction regex `<tag[^>]*>([\s\S]*?)</tag>`
(case-insensitive) anchored at the start of `l`; returns the lazy capture
on success. -/
def tryOpenAt (tag : List Char) (l : List Char) : Option (List Char) :=
  if ciPrefix ('<' :: tag) l then
    match (l.drop (1 + tag.length)).dropWhile (fun d => !(d == '>')) with
    | '>' :: body =>
      (splitAtSubCI ('<' :: '/' :: tag ++ ['>']) body).map (fun r => r.1)
    | _ => none
  else none

/-- Scan for the first position where the tag-extraction regex matches. -/
def extractTagScan (tag : List Char) : List Char → Option (List Char)
  | [] => none
  | c :: cs =>
    match tryOpenAt tag (c :: cs) with
    | some content => some content
    | none => extractTagScan tag cs

/-- Embedding of `extractTag` from the blog build script: regex capture,
trim, CDATA unwrapping, final trim. -/
def extractTag (xml : String) (tag : String) : String :=
  match extractTagScan tag.data xml.data with
  | none => ""
  | some raw =>
    let content := jsTrim raw
    let content :=
      if "<![CDATA[".data.isPrefixOf content then
        let c2 := content.drop 9
        if "]]>".data.isSuffixOf c2 then c2.take (c2.length - 3) else c2
      else content
    ⟨jsTrim content⟩

/-- Global scan of `/<item>([\s\S]*?)<\/item>/gi`, collecting each item
body; the fuel is the input length plus one, and every step advances. -/
def extractItemsGo : Nat → List Char → List (List Char)
  | 0, _ => []
  | _ + 1, [] => []
  | fuel + 1, c :: cs =>
    if ciPrefix "<item>".data (c :: cs) then
      match splitAtSubCI "</item>".data ((c :: cs).drop 6) with
      | some (body, rest) => body :: extractItemsGo fuel rest
      | none => extractItemsGo fuel cs
    else extractItemsGo fuel cs

/-- Embedding of `extractItems` from the blog build script. -/
def extractItems (xml : String) : List String :=
  (extractItemsGo (xml.data.length + 1) xml.data).map (fun l => ⟨l⟩)

/-- Scanner used by the DOMPurify model: removes each `<script...>` block
through its matching `</script>`; an unterminated script is removed to the
end of the input. -/
def stripScriptsGo : Nat → List Char → List Char
  | 0, _ => []
  | _ + 1, [] => []
  | fuel + 1, c :: cs =>
    if ciPrefix "<script".data (c :: cs) then
      match splitAtSubCI "</script>".data (c :: cs) with
      | some (_, rest) => stripScriptsGo fuel rest
      | none => []
    else c :: stripScriptsGo fuel cs

/-- Modelled from the spec: `DOMPurify.sanitize` (a third-party library,
not part of this repository).  The spec requires that markup capable of
executing script is stripped — in particular that a `<script>` element and
its contents are fully removed (end-to-end scenario 4) — while safe markup
is preserved.  Only that script-removal behaviour is modelled here: script
elements are removed with their contents and all other markup passes
through unchanged.  The `ADD_TAGS`/`ADD_ATTR` configuration used at build
time only widens the allowed safe subset (iframes) and does not affect the
modelled behaviour. -/
def sanitizeHtml (s : String) : String :=
  ⟨stripScriptsGo (s.data.length + 1) s.data⟩

def isQuoteChar (c : Char) : Bool := c == '"' || c == squote

/-- Backtracking search for `attr` + quote + non-quote run + quote at
descending offsets inside the non-`>` run following a tag name: the model
of greedy `[^>]+` before `url=["']([^"']+)["']`. -/
def attrValAt (attrLit : List Char) (after : List Char) : Nat → Option (List Char)
  | 0 => none
  | j + 1 =>
    let cand := after.drop (j + 1)
    (if ciPrefix attrLit cand then
      match cand.drop attrLit.length with
      | q :: rest =>
        if isQuoteChar q then
          let v := rest.takeWhile (fun d => !isQuoteChar d)
          if !v.isEmpty && !(rest.dropWhile (fun d => !isQuoteChar d)).isEmpty then
            some v
          else none
        else none
      | [] => none
    else none).orElse (fun _ => attrValAt attrLit after j)

/-- Scan for the first position where an attribute-URL regex of the shape
`<tag[^>]+attr=["']([^"']+)["']` (case-insensitive) matches. -/
def attrUrlScanGo (tagLit attrLit : List Char) : Nat → List Char → Option (List Char)
  | 0, _ => none
  | _ + 1, [] => none
  | fuel + 1, c :: cs =>
    if ciPrefix tagLit (c :: cs) then
      let after := (c :: cs).drop tagLit.length
      match attrValAt attrLit after
          ((after.takeWhile (fun d => !(d == '>'))).length) with
      | some v => some v
      | none => attrUrlScanGo tagLit attrLit fuel cs
    else attrUrlScanGo tagLit attrLit fuel cs

/-- Embedding of `extractCoverImage`: first `<img ... src="...">` URL. -/
def extractCoverImage (html : String) : String :=
  match attrUrlScanGo "<img".data "src=".data (html.data.length + 1) html.data with
  | some v => ⟨v⟩
  | none => ""

/-- The `<enclosure ... url="...">` match of `parseItem`. -/
def enclosureUrl (itemXml : String) : Option String :=
  (attrUrlScanGo "<enclosure".data "url=".data (itemXml.data.length + 1)
    itemXml.data).map (fun v => ⟨v⟩)

/-- Lazy stop search for the category regex: content runs to the first
`]]></category>` (preferred, consuming the optional CDATA close) or
`</category>`; returns the content and the remainder after the match. -/
def catBodyScan : Nat → List Char → Option (List Char × List Char)
  | 0, _ => none
  | _ + 1, [] => none
  | fuel + 1, c :: cs =>
    if ciPrefix "]]></category>".data (c :: cs) then some ([], (c :: cs).drop 14)
    else if ciPrefix "</category>".data (c :: cs) then some ([], (c :: cs).drop 11)
    else (catBodyScan fuel cs).map (fun r => (c :: r.1, r.2))

/-- Global scan of the category regex
`<category[^>]*>(?:<!\[CDATA\[)?([\s\S]*?)(?:\]\]>)?<\/category>`. -/
def extractCategoriesGo : Nat → List Char → List (List Char)
  | 0, _ => []
  | _ + 1, [] => []
  | fuel + 1, c :: cs =>
    if ciPrefix "<category".data (c :: cs) then
      match ((c :: cs).drop 9).dropWhile (fun d => !(d == '>')) with
      | '>' :: rest =>
        match catBodyScan (rest.length + 1)
            (if ciPrefix "<![CDATA[".data rest then rest.drop 9 else rest) with
        | some (content, after2) => content :: extractCategoriesGo fuel after2
        | none => extractCategoriesGo fuel cs
      | _ => extractCategoriesGo fuel cs
    else extractCategoriesGo fuel cs

/-- The category/tag extraction loop of `parseItem`: trimmed, empty tags
dropped, order preserved. -/
def extractCategories (itemXml : String) : List String :=
  (extractCategoriesGo (itemXml.data.length + 1) itemXml.data).filterMap
    (fun l =>
      let t := jsTrim l
      if t.isEmpty then none else some (⟨t⟩ : String))

structure FeedPost where
  slug : String
  title : String
  description : String
  date : String
  link : String
  creator : String
  tags : List String
  readTime : String
  coverImage : String
  content : String
deriving DecidableEq

/-- Date conversion for RSS pubDate values, i.e. the JavaScript
`new Date(pubDate).toISOString().split('T')[0]`.  JavaScript's
locale-tolerant date parsing is not modelled; the branch is unreachable in
every theorem of this development (their items carry no `pubDate`), so the
model maps every non-empty pubDate to the empty date string. -/
def jsDateIsoDate (_pubDate : String) : String := ""

/-- Embedding of `parseItem` from the documented blog build script. -/
def parseItem (itemXml : String) : FeedPost :=
  let title := extractTag itemXml "title"
  let link := extractTag itemXml "link"
  let pubDate := extractTag itemXml "pubDate"
  let description := extractTag itemXml "description"
  let rawContent := extractTag itemXml "content:encoded"
  let creator := extractTag itemXml "dc:creator"
  let content := sanitizeHtml rawContent
  let tags := extractCategories itemXml
  let coverImage :=
    match enclosureUrl itemXml with
    | some u => u
    | none => extractCoverImage content
  let slug := slugify title
  let date := if pubDate = "" then "" else jsDateIsoDate pubDate
  let readTime := if content = "" then "" else estimateReadTime content
  { slug := slug, title := title, description := description, date := date,
    link := link,
    creator := if creator = "" then "Shushank Singh" else creator,
    tags := tags, readTime := readTime, coverImage := coverImage,
    content := content }

structure FeedMeta where
  slug : String
  title : String
  description : String
  date : String
  link : String
  creator : String
  tags : List String
  readTime : String
  coverImage : String
deriving DecidableEq

def metaOfPost (p : FeedPost) : FeedMeta :=
  { slug := p.slug, title := p.title, description := p.description,
    date := p.date, link := p.link, creator := p.creator, tags := p.tags,
    readTime := p.readTime, coverImage := p.coverImage }

/-- The newest-first index sort `(b.date || '').localeCompare(a.date || '')`
of `build`; on ISO date strings `localeCompare` orders like the plain
string order, and both the JavaScript sort and `mergeSort` are stable. -/
def sortByDateDesc (l : List FeedMeta) : List FeedMeta :=
  l.mergeSort (fun a b => b.date ≤ a.date)

/-- Embedding of `build` from the blog build script, as a function of the
fetch outcome (`fetchURL` resolves to the body or rejects on a network
error, timeout, or non-2xx final status).  File writes are modelled by
the returned data: the first component is the index content (`[]` is the
empty list) and the second the per-post rendered files.  The function is
total: the build returns without throwing on every fetch outcome. -/
def buildBlog (fetched : Except String String) :
    List FeedMeta × List (String × FeedPost) :=
  match fetched with
  | .error _ => ([], [])
  | .ok xml =>
    let items := extractItems xml
    if items.isEmpty then ([], [])
    else
      let folded := items.foldl
        (fun (acc : List FeedMeta × List (String × FeedPost)) itemXml =>
          let post := parseItem itemXml
          if post.title = "" || post.slug = "" then acc
          else (acc.1 ++ [metaOfPost post],
            acc.2 ++ [(post.slug ++ ".json", post)]))
        ([], [])
      (sortByDateDesc folded.1, folded.2)

/-- C5: for every fetch failure (network error, timeout, or non-200 final
status, all surfacing as a rejected promise), the feed ingester's build
writes the index with content `[]` (the empty index), writes no per-post
files, and returns without throwing (the model is a total function whose
error branch returns normally). -/
theorem buildBlog_c5 (err : String) : buildBlog (Except.error err) = ([], []) :=
  rfl

/-! ## The notebook ingester (build-notebooks.js) -/

/-- Processed cell outputs; payloads that the JavaScript stores without
coercion are kept as JSON values. -/
inductive NbOut where
  | text (t : Json)
  | image (data : String)
  | html (h : String)
  | errorOut (ename evalue : Json) (traceback : String)

/-- Processed cells as written to the rendered JSON. -/
inductive PCell where
  | markdown (source : Json)
  | code (source : Json) (executionCount : Option Json) (outputs : List NbOut)

def isNullJson : Json → Bool
  | .null => true
  | _ => false

def jsTruthyOpt : Option Json → Bool
  | some v => jsTruthy v
  | none => false

/-- The `source` local of the cell loop:
`Array.isArray(cell.source) ? cell.source.join('') : (cell.source || '')`.
Accessing `.source` on a `null` cell throws; a truthy non-string
non-array source value is kept as-is and a falsy one becomes the empty
string. -/
def cellSourceJ : Json → Except Unit Json
  | .null => .error ()
  | .obj kvs =>
    .ok (match jLookup kvs "source" with
      | some (.arr xs) => .str (jsJoinWith "" xs)
      | some v => if jsTruthy v then v else .str ""
      | none => .str "")
  | _ => .ok (.str "")

/-- The `output.data || {}` default of the classification lambda. -/
def outDataOf (output : Json) : Json :=
  match getField output "data" with
  | some v => if jsTruthy v then v else Json.obj []
  | none => Json.obj []

/-- The `x || ''` defaulting used for `ename`/`evalue`. -/
def jsOrEmptyStr : Option Json → Json
  | some v => if jsTruthy v then v else Json.str ""
  | none => Json.str ""

/-- The `output.text` handling of stream outputs. -/
def streamTextOf (output : Json) : Json :=
  match getField output "text" with
  | some (.arr xs) => Json.str (jsJoinWith "" xs)
  | some v => if jsTruthy v then v else Json.str ""
  | none => Json.str ""

/-- The data-keyed branch of the classification lambda for
`execute_result`/`display_data` outputs: base64 image preferred, then
sanitized HTML, then plain text; anything else maps to `null` (dropped).
Note the truthiness tests: a key present with a falsy value (empty
string, 0, false, null) selects the next branch. -/
def classifyData (data : Json) : Except Unit (Option NbOut) :=
  if jsTruthyOpt (getField data "image/png") then
    .ok (some (.image ("data:image/png;base64," ++
      jsToString ((getField data "image/png").getD Json.null))))
  else if jsTruthyOpt (getField data "text/html") then
    .ok (some (.html (sanitizeHtml (match getField data "text/html" with
      | some (.arr xs) => jsJoinWith "" xs
      | some v => jsToString v
      | none => ""))))
  else if jsTruthyOpt (getField data "text/plain") then
    .ok (some (.text (match getField data "text/plain" with
      | some (.arr xs) => Json.str (jsJoinWith "" xs)
      | some v => v
      | none => Json.str "")))
  else .ok none

/-- The classification lambda once the `output_type` string is known. -/
def classifyTyped (output : Json) (ot : String) : Except Unit (Option NbOut) :=
  if ot = "stream" then .ok (some (.text (streamTextOf output)))
  else if ot = "execute_result" ∨ ot = "display_data" then
    classifyData (outDataOf output)
  else if ot = "error" then
    match getField output "traceback" with
    | some (.arr xs) =>
      .ok (some (.errorOut (jsOrEmptyStr (getField output "ename"))
        (jsOrEmptyStr (getField output "evalue")) (jsJoinWith "\n" xs)))
    | some v =>
      if jsTruthy v then .error ()
      else .ok (some (.errorOut (jsOrEmptyStr (getField output "ename"))
        (jsOrEmptyStr (getField output "evalue")) ""))
    | none =>
      .ok (some (.errorOut (jsOrEmptyStr (getField output "ename"))
        (jsOrEmptyStr (getField output "evalue")) ""))
  else .ok none

/-- The per-output classification lambda inside `processNotebook`:
`Except.error` models the `TypeError`s the JavaScript would raise
(property access on a `null` output, `.join` on a truthy non-array
traceback); `.ok none` is the `return null` path filtered out by
`.filter(Boolean)`. -/
def classifyOutput (output : Json) : Except Unit (Option NbOut) :=
  if isNullJson output then .error ()
  else
    match getField output "output_type" with
    | some (.str ot) => classifyTyped output ot
    | _ => .ok none

/-- The `.map(classify).filter(Boolean)` over a code cell's outputs,
with exception propagation and order preserved. -/
def classifyOutputs : List Json → Except Unit (List NbOut)
  | [] => .ok []
  | o :: os =>
    match classifyOutput o with
    | .error e => .error e
    | .ok r =>
      match classifyOutputs os with
      | .error e => .error e
      | .ok rest =>
        .ok (match r with
          | some n => n :: rest
          | none => rest)

/-- The `cell.execution_count || null` default. -/
def execCountOf (cell : Json) : Option Json :=
  match getField cell "execution_count" with
  | some v => if jsTruthy v then some v else none
  | none => none

/-- One iteration of the cell loop: markdown cells push their source,
code cells push source, execution count and classified outputs, other
cell types push nothing.  A truthy non-array `outputs` value would make
`.map` throw. -/
def processOneCell (cell : Json) : Except Unit (Option PCell) :=
  match cellSourceJ cell with
  | .error e => .error e
  | .ok source =>
    match getField cell "cell_type" with
    | some (.str ct) =>
      if ct = "markdown" then .ok (some (.markdown source))
      else if ct = "code" then
        match getField cell "outputs" with
        | some (.arr l) =>
          match classifyOutputs l with
          | .error e => .error e
          | .ok outs => .ok (some (.code source (execCountOf cell) outs))
        | some v =>
          if jsTruthy v then .error ()
          else .ok (some (.code source (execCountOf cell) []))
        | none => .ok (some (.code source (execCountOf cell) []))
      else .ok none
    | _ => .ok none

/-- The cell loop from `startIdx` on, in order. -/
def processCellList : List Json → Except Unit (List PCell)
  | [] => .ok []
  | c :: cs =>
    match processOneCell c with
    | .error e => .error e
    | .ok oc =>
      match processCellList cs with
      | .error e => .error e
      | .ok rest =>
        .ok (match oc with
          | some p => p :: rest
          | none => rest)

/-- The `nb.cells || []` extraction: property access on a `null` document
throws; a falsy or missing `cells` gives `[]`.  A truthy non-array value
is modelled as an error (for objects, numbers and `true` the JavaScript
indeed throws on `cells[0].source`; the degenerate case of a non-empty
string value, which JavaScript would process into an empty cell list, is
conservatively modelled as an error as well and appears in no claim). -/
def nbCellsOutcome : Json → Except Unit (List Json)
  | .null => .error ()
  | .obj kvs =>
    match jLookup kvs "cells" with
    | some (.arr a) => .ok a
    | some v => if jsTruthy v then .error () else .ok []
    | none => .ok []
  | _ => .ok []

structure NbDoc where
  slug : String
  date : String
  title : Json
  description : Json
  tags : Json
  difficulty : Json
  duration : Json
  filename : String
  cells : List PCell

structure NbEntry where
  slug : String
  date : String
  title : Json
  description : Json
  tags : Json
  difficulty : Json
  duration : Json
  cellCount : Nat
  filename : String

/-- The title fallback: replace hyphens with spaces, then upper-case each
character matched by `\b\w` (a word character at a word boundary). -/
def titleFromSlugGo : Bool → List Char → List Char
  | _, [] => []
  | prevW, c :: cs =>
    (if isWordChar c && !prevW then c.toUpper else c) ::
      titleFromSlugGo (isWordChar c) cs

def titleFromSlug (slug : String) : String :=
  ⟨titleFromSlugGo false (slug.data.map (fun c => if c == '-' then ' ' else c))⟩

/-- Lookup in the frontmatter map (keys are unique by construction). -/
def fmLookup (m : List (String × Json)) (k : String) : Option Json :=
  (m.find? (fun p => p.1 == k)).map (fun p => p.2)

/-- The `meta.x || default` fields of the rendered data. -/
def metaOr (m : List (String × Json)) (k : String) (dflt : Json) : Json :=
  match fmLookup m k with
  | some v => if jsTruthy v then v else dflt
  | none => dflt

/-- The rendered document and index entry built at the end of
`processNotebook`. -/
def nbResult (filename : String) (meta : List (String × Json))
    (pcs : List PCell) : NbDoc × NbEntry :=
  let ds := parseFilename filename
  let title := metaOr meta "title" (.str (titleFromSlug ds.2))
  let description := metaOr meta "description" (.str "")
  let tags := metaOr meta "tags" (.arr [])
  let difficulty := metaOr meta "difficulty" (.str "")
  let duration := metaOr meta "duration" (.str "")
  ({ slug := ds.2, date := ds.1, title := title, description := description,
     tags := tags, difficulty := difficulty, duration := duration,
     filename := filename, cells := pcs },
   { slug := ds.2, date := ds.1, title := title, description := description,
     tags := tags, difficulty := difficulty, duration := duration,
     cellCount := pcs.length, filename := filename })

/-- The body of `processNotebook` after `JSON.parse`: frontmatter
detection on the first cell (its source must be a string for `.trim()`
not to throw), skipping that cell whenever its trimmed source starts with
`---` — regardless of whether `parseFrontmatter` extracts anything — then
the cell loop.  `.ok none` is the `return null` path taken when the raw
`cells` array is empty. -/
def processNb (filename : String) (nb : Json) :
    Except Unit (Option (NbDoc × NbEntry)) :=
  match nbCellsOutcome nb with
  | .error e => .error e
  | .ok [] => .ok none
  | .ok (c0 :: restCells) =>
    match cellSourceJ c0 with
    | .error e => .error e
    | .ok (.str firstSource) =>
      let hasFm := "---".data.isPrefixOf (jsTrim firstSource.data)
      let meta := if hasFm then parseFrontmatter firstSource else []
      match processCellList (if hasFm then restCells else c0 :: restCells) with
      | .error e => .error e
      | .ok pcs => .ok (some (nbResult filename meta pcs))
    | .ok _ => .error ()

/-- `processNotebook` on a file's raw contents: a `JSON.parse` failure or
any body throw surfaces as `.error`, caught by the build loop. -/
def processNotebookE (filename raw : String) :
    Except Unit (Option (NbDoc × NbEntry)) :=
  match jsonParse raw with
  | none => .error ()
  | some nb => processNb filename nb

/-- The notebook build loop: a throwing or `null`-returning file is
skipped and the loop continues; index entries and per-notebook rendered
writes are collected in order. -/
def buildNbCore : List (String × String) → List NbEntry × List (String × NbDoc)
  | [] => ([], [])
  | f :: fs =>
    match processNotebookE f.1 f.2 with
    | .ok (some r) =>
      ((r.2 :: (buildNbCore fs).1), (r.1.slug ++ ".json", r.1) :: (buildNbCore fs).2)
    | _ => buildNbCore fs

/-- Embedding of the notebook `build`: the directory listing filtered to
`.ipynb` files, sorted ascending by name and reversed (newest first by
date prefix), then the processing loop. -/
def buildNotebooks (files : List (String × String)) :
    List NbEntry × List (String × NbDoc) :=
  buildNbCore
    (((files.filter (fun f => ".ipynb".data.isSuffixOf f.1.data)).mergeSort
      (fun a b => a.1 ≤ b.1)).reverse)

/-! ## The client renderer's output rendering (notebook-renderer.js)

The repository holds a legacy renderer copy whose `init` performs no slug
validation and whose html outputs are inserted unsanitized; the
documented copy validates the slug and re-sanitizes html outputs.  The
specification describes the latter, and this embedding follows it. -/

def escapeHtmlChar (c : Char) : List Char :=
  if c == '&' then "&amp;".data
  else if c == '<' then "&lt;".data
  else if c == '>' then "&gt;".data
  else if c == '"' then "&quot;".data
  else [c]

/-- Embedding of `escapeHtml`: the four chained global replaces equal
this single character map because the inserted entity texts contain no
character rewritten by a later pass (ampersands are produced only by the
first pass). -/
def escapeHtml (s : String) : String := ⟨s.data.flatMap escapeHtmlChar⟩

/-- Global scan of the ANSI-escape regex `\x1b\[[0-9;]*m`. -/
def stripAnsiGo : Nat → List Char → List Char
  | 0, _ => []
  | _ + 1, [] => []
  | fuel + 1, c :: cs =>
    if c == Char.ofNat 27 then
      match cs with
      | b :: cs2 =>
        if b == '[' then
          match cs2.dropWhile (fun d => d.isDigit || d == ';') with
          | 'm' :: rest => stripAnsiGo fuel rest
          | _ => c :: stripAnsiGo fuel cs
        else c :: stripAnsiGo fuel cs
      | [] => c :: stripAnsiGo fuel cs
    else c :: stripAnsiGo fuel cs

def stripAnsi (s : String) : String := ⟨stripAnsiGo (s.data.length + 1) s.data⟩

/-- Embedding of the per-output rendering lambda inside `renderCell` of
the documented client renderer: text and error payloads are HTML-escaped
(non-string payloads, on which JavaScript's `.replace` would throw, are
modelled through string coercion; the build only serializes strings
there), html payloads are re-sanitized with DOMPurify before insertion. -/
def renderOutput : NbOut → String
  | .text t => "<div class=\"nb-output\">" ++ escapeHtml (jsToString t) ++ "</div>"
  | .image d =>
    "<div class=\"nb-output nb-output-image\"><img src=\"" ++ d ++
      "\" alt=\"Output\"></div>"
  | .html h =>
    "<div class=\"nb-output nb-output-html\">" ++ sanitizeHtml h ++ "</div>"
  | .errorOut en ev tb =>
    "<div class=\"nb-output nb-output-error\">" ++ escapeHtml (jsToString en) ++
      ": " ++ escapeHtml (jsToString ev) ++ "\n" ++ escapeHtml (stripAnsi tb) ++
      "</div>"

/-- The spec's end-to-end scenario item: a feed item whose encoded content
carries a script element followed by a paragraph. -/
def c1ItemXml : String :=
  "<title>demo</title><content:encoded><script>alert(1)</script><p>ok</p></content:encoded>"

/-- C1: the HTML sanitization (DOMPurify, modelled from the spec) maps
`<script>alert(1)</script><p>ok</p>` to `<p>ok</p>`; the build-time
`parseItem` stores exactly that sanitized content for a feed item carrying
the scenario markup, and the render-time output lambda wraps exactly that
sanitized markup when given the scenario string as an html output. -/
theorem sanitize_c1_scenario :
    sanitizeHtml "<script>alert(1)</script><p>ok</p>" = "<p>ok</p>" ∧
    (parseItem c1ItemXml).content = "<p>ok</p>" ∧
    renderOutput (NbOut.html "<script>alert(1)</script><p>ok</p>") =
      "<div class=\"nb-output nb-output-html\"><p>ok</p></div>" :=
  ⟨rfl, rfl, rfl⟩

/-! ## C4: skip-and-continue of the notebook build -/

/-- A notebook consisting of a single cell of type `raw`: its processed
cell list is empty but its raw `cells` array is not. -/
def c4RawCellNb : String :=
  "\x7b\"cells\":[\x7b\"cell_type\":\"raw\",\"source\":\"x\"\x7d]\x7d"

/-- C4 counterexample: the claim says a file whose *processed* cell list
is empty contributes no index entry and no rendered file, but
`processNotebook` only checks the *raw* `cells` array; a notebook whose
only cell has type `raw` produces an entry (and a rendered document) with
an empty processed cell list and `cellCount` 0. -/
theorem processNotebook_c4_counterexample :
    (processNotebookE "nb.ipynb" c4RawCellNb).map
        (Option.map (fun r => r.1.cells.length)) = .ok (some 0) ∧
    (processNotebookE "nb.ipynb" c4RawCellNb).map
        (Option.map (fun r => r.2.cellCount)) = .ok (some 0) :=
  ⟨rfl, rfl⟩

/-- True when the build loop produces an index entry for the file. -/
def nbEntryProduced (f : String × String) : Bool :=
  match processNotebookE f.1 f.2 with
  | .ok (some _) => true
  | _ => false

theorem buildNbCore_length_countP :
    ∀ l : List (String × String),
      (buildNbCore l).1.length = l.countP nbEntryProduced := by
  intro l
  induction l with
  | nil => rfl
  | cons f fs ih =>
    rw [List.countP_cons]
    cases h : processNotebookE f.1 f.2 with
    | error e =>
      have hn : nbEntryProduced f = false := by unfold nbEntryProduced; rw [h]
      simp only [buildNbCore, h, hn, if_false, Nat.add_zero]
      exact ih
    | ok o =>
      cases o with
      | none =>
        have hn : nbEntryProduced f = false := by
          unfold nbEntryProduced; rw [h]
        simp only [buildNbCore, h, hn, if_false, Nat.add_zero]
        exact ih
      | some r =>
        have hn : nbEntryProduced f = true := by unfold nbEntryProduced; rw [h]
        simp only [buildNbCore, h, hn, if_true, List.length_cons]
        rw [ih]

def c4Valid1 : String × String :=
  ("2024-01-01_a.ipynb",
   "\x7b\"cells\":[\x7b\"cell_type\":\"markdown\",\"source\":\"hello\"\x7d]\x7d")

def c4Valid2 : String × String :=
  ("2024-01-02_b.ipynb",
   "\x7b\"cells\":[\x7b\"cell_type\":\"markdown\",\"source\":\"world\"\x7d]\x7d")

def c4Invalid : String × String := ("2024-01-03_c.ipynb", "not json")

theorem buildNbCore_cons_skip (f : String × String)
    (fs : List (String × String))
    (h : ∀ r, processNotebookE f.1 f.2 ≠ Except.ok (some r)) :
    buildNbCore (f :: fs) = buildNbCore fs := by
  cases hc : processNotebookE f.1 f.2 with
  | error e => simp only [buildNbCore, hc]
  | ok o =>
    cases o with
    | none => simp only [buildNbCore, hc]
    | some r => exact absurd hc (h r)

theorem buildNbCore_cons_keep (f : String × String)
    (fs : List (String × String)) (r : NbDoc × NbEntry)
    (h : processNotebookE f.1 f.2 = Except.ok (some r)) :
    buildNbCore (f :: fs) =
      ((r.2 :: (buildNbCore fs).1),
        (r.1.slug ++ ".json", r.1) :: (buildNbCore fs).2) := by
  simp only [buildNbCore, h]

/-- C4 (amended): a file whose content fails JSON parsing, or whose *raw*
`cells` array is empty, contributes no index entry and no rendered file
while the processing of all other files is unchanged; and for the
three-notebook directory with exactly one invalid-JSON file the index
holds exactly the two entries of the valid notebooks.  (The original
claim's "processed cell list is empty" condition is refuted by
`processNotebook_c4_counterexample`: the code checks the raw cell array,
not the processed one.) -/
theorem buildNb_c4_amended :
    (∀ (pre post : List (String × String)) (name raw : String),
      (jsonParse raw = none ∨
        (∃ nb, jsonParse raw = some nb ∧ nbCellsOutcome nb = Except.ok [])) →
      buildNbCore (pre ++ (name, raw) :: post) = buildNbCore (pre ++ post)) ∧
    (buildNotebooks [c4Valid1, c4Invalid, c4Valid2]).1.length = 2 := by
  constructor
  · intro pre post name raw hbad
    have hskip : ∀ r, processNotebookE name raw ≠ .ok (some r) := by
      intro r hcon
      rcases hbad with h | ⟨nb, h1, h2⟩
      · unfold processNotebookE at hcon
        rw [h] at hcon
        exact absurd hcon (by simp)
      · have hpn : processNotebookE name raw = processNb name nb := by
          unfold processNotebookE
          rw [h1]
        rw [hpn] at hcon
        unfold processNb at hcon
        rw [h2] at hcon
        exact absurd hcon (by simp)
    induction pre with
    | nil =>
      simp only [List.nil_append]
      exact buildNbCore_cons_skip (name, raw) post hskip
    | cons f fs ih =>
      simp only [List.cons_append]
      cases h : processNotebookE f.1 f.2 with
      | error e =>
        have hf : ∀ r, processNotebookE f.1 f.2 ≠ Except.ok (some r) := by
          intro r hcon
          rw [h] at hcon
          exact absurd hcon (by simp)
        rw [buildNbCore_cons_skip f _ hf, buildNbCore_cons_skip f _ hf, ih]
      | ok o =>
        cases o with
        | none =>
          have hf : ∀ r, processNotebookE f.1 f.2 ≠ Except.ok (some r) := by
            intro r hcon
            rw [h] at hcon
            exact absurd hcon (by simp)
          rw [buildNbCore_cons_skip f _ hf, buildNbCore_cons_skip f _ hf, ih]
        | some r =>
          rw [buildNbCore_cons_keep f (fs ++ (name, raw) :: post) r h,
            buildNbCore_cons_keep f (fs ++ post) r h, ih]
  · unfold buildNotebooks
    rw [buildNbCore_length_countP]
    have hperm : List.Perm
        ((([c4Valid1, c4Invalid, c4Valid2].filter
          (fun f => ".ipynb".data.isSuffixOf f.1.data)).mergeSort
            (fun a b => a.1 ≤ b.1)).reverse)
        ([c4Valid1, c4Invalid, c4Valid2].filter
          (fun f => ".ipynb".data.isSuffixOf f.1.data)) :=
      (List.reverse_perm _).trans (List.mergeSort_perm _ _)
    rw [hperm.countP_eq]
    rfl

/-- Witness for `buildNb_c4_amended`: dropping the invalid-JSON file from
a concrete three-file directory leaves the other two files' processing
unchanged. -/
theorem buildNb_c4_amended_witness :
    buildNbCore [c4Valid1, ("2024-01-03_c.ipynb", "not json"), c4Valid2] =
      buildNbCore [c4Valid1, c4Valid2] :=
  (buildNb_c4_amended).1 [c4Valid1] [c4Valid2] "2024-01-03_c.ipynb" "not json"
    (Or.inl rfl)

/-! ## C9: frontmatter cell exclusion -/

/-- C9: whenever the first cell's source (a string, possibly joined from
an array) starts with `---` after trimming, the processed cell list of
`processNotebook` is exactly the processing of the remaining cells — the
first cell is excluded even when the frontmatter block is malformed and
`parseFrontmatter` extracts nothing, in which case the cell's content is
silently dropped. -/
theorem processNb_c9 (filename : String) (c0 : Json) (rest : List Json)
    (s : String) (pcs : List PCell)
    (h1 : cellSourceJ c0 = Except.ok (Json.str s))
    (h2 : "---".data.isPrefixOf (jsTrim s.data) = true)
    (h3 : processCellList rest = Except.ok pcs) :
    (processNb filename (Json.obj [("cells", Json.arr (c0 :: rest))])).map
      (Option.map (fun r => r.1.cells)) = Except.ok (some pcs) := by
  unfold processNb
  rw [show nbCellsOutcome (Json.obj [("cells", Json.arr (c0 :: rest))]) =
    Except.ok (c0 :: rest) from rfl]
  dsimp only
  rw [h1]
  dsimp only
  rw [h2]
  rw [if_pos rfl, if_pos rfl, h3]
  rfl

/-- Witness for `processNb_c9`: a first cell holding a *malformed*
frontmatter block (no closing delimiter, so `parseFrontmatter` extracts
nothing) is dropped, and the remaining markdown cell is processed. -/
theorem processNb_c9_witness :
    (processNb "nb.ipynb"
        (Json.obj [("cells", Json.arr
          [Json.obj [("cell_type", Json.str "markdown"),
            ("source", Json.str "---\ntitle: broken")],
           Json.obj [("cell_type", Json.str "markdown"),
            ("source", Json.str "hello")]])])).map
      (Option.map (fun r => r.1.cells)) =
      Except.ok (some [PCell.markdown (Json.str "hello")]) :=
  processNb_c9 "nb.ipynb"
    (Json.obj [("cell_type", Json.str "markdown"),
      ("source", Json.str "---\ntitle: broken")])
    [Json.obj [("cell_type", Json.str "markdown"),
      ("source", Json.str "hello")]]
    "---\ntitle: broken" [PCell.markdown (Json.str "hello")] rfl rfl rfl

/-! ## C10: output classification -/

/-- C10 counterexample: the claim says only a data object containing
*none of* the keys image/png, text/html, text/plain is omitted, but the
code tests *truthiness*: an execute_result whose data contains the key
image/png with the falsy value `""` is omitted even though the key is
present. -/
theorem classifyOutput_c10_counterexample :
    classifyOutput (Json.obj [("output_type", Json.str "execute_result"),
      ("data", Json.obj [("image/png", Json.str "")])]) = Except.ok none ∧
    getField (Json.obj [("image/png", Json.str "")]) "image/png" =
      some (Json.str "") :=
  ⟨rfl, rfl⟩

/-- C10 (amended): an output of a recognized data-bearing type whose
data has *no truthy value* at any of image/png, text/html, text/plain is
omitted; an output whose output_type string is none of stream,
execute_result, display_data, error is omitted; and when no output
throws, the processed outputs are exactly the per-output classifications
that produced something, kept in their original order. -/
theorem classifyOutput_c10_amended :
    (∀ (output : Json) (ot : String),
      isNullJson output = false →
      getField output "output_type" = some (Json.str ot) →
      ot ≠ "stream" → ¬(ot = "execute_result" ∨ ot = "display_data") →
      ot ≠ "error" → classifyOutput output = Except.ok none) ∧
    (∀ (output : Json) (ot : String),
      isNullJson output = false →
      getField output "output_type" = some (Json.str ot) →
      ot ≠ "stream" → (ot = "execute_result" ∨ ot = "display_data") →
      jsTruthyOpt (getField (outDataOf output) "image/png") = false →
      jsTruthyOpt (getField (outDataOf output) "text/html") = false →
      jsTruthyOpt (getField (outDataOf output) "text/plain") = false →
      classifyOutput output = Except.ok none) ∧
    (∀ outs : List Json,
      (∀ o ∈ outs, ∀ e, classifyOutput o ≠ Except.error e) →
      classifyOutputs outs = Except.ok (outs.filterMap (fun o =>
        match classifyOutput o with
        | Except.ok r => r
        | Except.error _ => none))) := by
  refine ⟨?_, ?_, ?_⟩
  · intro output ot h1 h2 h3 h4 h5
    simp only [classifyOutput, h1, Bool.false_eq_true, if_false, h2]
    simp only [classifyTyped, if_neg h3, if_neg h4, if_neg h5]
  · intro output ot h1 h2 h3 h4 h5 h6 h7
    simp only [classifyOutput, h1, Bool.false_eq_true, if_false, h2]
    simp only [classifyTyped, if_neg h3, if_pos h4]
    simp only [classifyData, h5, h6, h7, Bool.false_eq_true, if_false]
  · intro outs h
    induction outs with
    | nil => rfl
    | cons o os ih =>
      have ho := h o (by simp)
      have hos : ∀ x ∈ os, ∀ e, classifyOutput x ≠ Except.error e := by
        intro x hm
        exact h x (by simp [hm])
      rw [List.filterMap_cons]
      cases hc : classifyOutput o with
      | error e => exact absurd hc (ho e)
      | ok r =>
        simp only [classifyOutputs, hc, ih hos]
        cases r with
        | none => rfl
        | some n => rfl

/-- Witness for `classifyOutput_c10_amended`: an unrecognized
output_type is dropped, a display_data whose data object is empty is
dropped, and the two-output list keeps only its recognized stream output. -/
theorem classifyOutput_c10_amended_witness :
    classifyOutput (Json.obj [("output_type", Json.str "widget")]) =
        Except.ok none ∧
    classifyOutput (Json.obj [("output_type", Json.str "display_data"),
        ("data", Json.obj [])]) = Except.ok none ∧
    classifyOutputs [Json.obj [("output_type", Json.str "widget")],
        Json.obj [("output_type", Json.str "stream"),
          ("text", Json.str "hi")]] =
      Except.ok [NbOut.text (Json.str "hi")] := by
  refine ⟨?_, ?_, ?_⟩
  · exact classifyOutput_c10_amended.1
      (Json.obj [("output_type", Json.str "widget")]) "widget" rfl rfl
      (by decide) (by decide) (by decide)
  · exact classifyOutput_c10_amended.2.1
      (Json.obj [("output_type", Json.str "display_data"),
        ("data", Json.obj [])]) "display_data" rfl rfl (by decide)
      (Or.inr rfl) rfl rfl rfl
  · have h := classifyOutput_c10_amended.2.2
      [Json.obj [("output_type", Json.str "widget")],
        Json.obj [("output_type", Json.str "stream"),
          ("text", Json.str "hi")]]
      (by
        intro o hm e hc
        simp only [List.mem_cons, List.not_mem_nil, or_false] at hm
        rcases hm with hm | hm
        · rw [hm] at hc
          exact absurd hc (by simp [show classifyOutput
              (Json.obj [("output_type", Json.str "widget")]) =
                Except.ok none from rfl])
        · rw [hm] at hc
          exact absurd hc (by simp [show classifyOutput
              (Json.obj [("output_type", Json.str "stream"),
                ("text", Json.str "hi")]) =
                Except.ok (some (NbOut.text (Json.str "hi"))) from rfl]))
    rw [h]
    rfl

/-! ## C2: client-side slug validation before fetch -/

/-- The character class `[a-zA-Z0-9_-]` of the slug-validation regex. -/
def slugCharOk (c : Char) : Bool :=
  ('a' ≤ c && c ≤ 'z') || ('A' ≤ c && c ≤ 'Z') || ('0' ≤ c && c ≤ '9') ||
    c == '_' || c == '-'

/-- The test of the anchored regex `[a-zA-Z0-9_-]+` over the whole
string: non-empty and every character in the class. -/
def nbSlugOk (s : String) : Bool :=
  !s.data.isEmpty && s.data.all slugCharOk

/-- Embedding of `validateSlug` (utils.js): `null` or a non-matching
string maps to `null`, a matching string is returned unchanged. -/
def validateSlug (slug : Option String) : Option String :=
  match slug with
  | none => none
  | some s => if s = "" then none else if nbSlugOk s then some s else none

/-- The characters `encodeURIComponent` leaves unescaped:
`A-Z a-z 0-9 - _ . ! ~ * ( )` and the apostrophe. -/
def uriUnreserved (c : Char) : Bool :=
  ('A' ≤ c && c ≤ 'Z') || ('a' ≤ c && c ≤ 'z') || ('0' ≤ c && c ≤ '9') ||
    c == '-' || c == '_' || c == '.' || c == '!' || c == '~' || c == '*' ||
    c == squote || c == '(' || c == ')'

/-- UTF-8 bytes of a scalar value. -/
def utf8Bytes (c : Char) : List Nat :=
  let n := c.toNat
  if n < 128 then [n]
  else if n < 2048 then [192 + n / 64, 128 + n % 64]
  else if n < 65536 then
    [224 + n / 4096, 128 + (n / 64) % 64, 128 + n % 64]
  else
    [240 + n / 262144, 128 + (n / 4096) % 64, 128 + (n / 64) % 64,
      128 + n % 64]

/-- Upper-case hexadecimal digit. -/
def hexDigitU (n : Nat) : Char :=
  if n < 10 then Char.ofNat (48 + n) else Char.ofNat (55 + n)

/-- Percent-encoding of one character as `encodeURIComponent` does it:
unreserved characters pass through, all others become the `%XX` triples
of their UTF-8 bytes. -/
def pctEncodeChar (c : Char) : List Char :=
  if uriUnreserved c then [c]
  else (utf8Bytes c).foldr
    (fun b acc => '%' :: hexDigitU (b / 16) :: hexDigitU (b % 16) :: acc) []

def pctEncode : List Char → List Char
  | [] => []
  | c :: cs => pctEncodeChar c ++ pctEncode cs

/-- Embedding of `encodeURIComponent`. -/
def encodeURIComponent (s : String) : String :=
  ⟨pctEncode s.data⟩

/-- The externally visible action `init` takes after reading the `nb`
query parameter: a redirect to the listing page, or a fetch of a URL. -/
inductive InitStep where
  | redirect (url : String)
  | fetchUrl (url : String)
deriving DecidableEq

/-- Embedding of the renderer's `init` up to its first network action:
`params.get` yields `none` when the parameter is missing; a missing or
empty slug, or one failing the anchored regex test, redirects; otherwise
the rendered-notebook URL is fetched. -/
def nbInit (slug : Option String) : InitStep :=
  match slug with
  | none => InitStep.redirect "/tutorials/"
  | some s =>
    if s = "" ∨ nbSlugOk s = false then InitStep.redirect "/tutorials/"
    else InitStep.fetchUrl
      ("/tutorials/_rendered/" ++ encodeURIComponent s ++ ".json")

theorem slugCharOk_cases {c : Char} (h : slugCharOk c = true) :
    (97 ≤ c.toNat ∧ c.toNat ≤ 122) ∨ (65 ≤ c.toNat ∧ c.toNat ≤ 90) ∨
    (48 ≤ c.toNat ∧ c.toNat ≤ 57) ∨ c = '_' ∨ c = '-' := by
  simp only [slugCharOk, Bool.or_eq_true, Bool.and_eq_true,
    decide_eq_true_eq, beq_iff_eq] at h
  rcases h with ((((⟨h1, h2⟩ | ⟨h1, h2⟩) | ⟨h1, h2⟩) | h) | h)
  · exact Or.inl ⟨UInt32.le_def.mp (Char.le_def.mp h1),
      UInt32.le_def.mp (Char.le_def.mp h2)⟩
  · exact Or.inr (Or.inl ⟨UInt32.le_def.mp (Char.le_def.mp h1),
      UInt32.le_def.mp (Char.le_def.mp h2)⟩)
  · exact Or.inr (Or.inr (Or.inl ⟨UInt32.le_def.mp (Char.le_def.mp h1),
      UInt32.le_def.mp (Char.le_def.mp h2)⟩))
  · exact Or.inr (Or.inr (Or.inr (Or.inl h)))
  · exact Or.inr (Or.inr (Or.inr (Or.inr h)))

theorem uriUnreserved_of_slugCharOk {c : Char} (h : slugCharOk c = true) :
    uriUnreserved c = true := by
  rcases slugCharOk_cases h with ⟨h1, h2⟩ | ⟨h1, h2⟩ | ⟨h1, h2⟩ | h | h
  · have ha : 'a' ≤ c := Char.le_def.mpr (UInt32.le_def.mpr h1)
    have hb : c ≤ 'z' := Char.le_def.mpr (UInt32.le_def.mpr h2)
    simp [uriUnreserved, ha, hb]
  · have ha : 'A' ≤ c := Char.le_def.mpr (UInt32.le_def.mpr h1)
    have hb : c ≤ 'Z' := Char.le_def.mpr (UInt32.le_def.mpr h2)
    simp [uriUnreserved, ha, hb]
  · have ha : '0' ≤ c := Char.le_def.mpr (UInt32.le_def.mpr h1)
    have hb : c ≤ '9' := Char.le_def.mpr (UInt32.le_def.mpr h2)
    simp [uriUnreserved, ha, hb]
  · simp [uriUnreserved, h]
  · simp [uriUnreserved, h]

theorem slugCharOk_ne {c : Char} (h : slugCharOk c = true) :
    c ≠ '/' ∧ c ≠ '.' := by
  rcases slugCharOk_cases h with ⟨h1, h2⟩ | ⟨h1, h2⟩ | ⟨h1, h2⟩ | h | h
  · constructor
    · intro heq; rw [heq] at h1; exact absurd h1 (by decide)
    · intro heq; rw [heq] at h1; exact absurd h1 (by decide)
  · constructor
    · intro heq; rw [heq] at h1; exact absurd h1 (by decide)
    · intro heq; rw [heq] at h1; exact absurd h1 (by decide)
  · constructor
    · intro heq; rw [heq] at h1; exact absurd h1 (by decide)
    · intro heq; rw [heq] at h1; exact absurd h1 (by decide)
  · rw [h]; exact ⟨by decide, by decide⟩
  · rw [h]; exact ⟨by decide, by decide⟩

theorem pctEncode_eq_self_of_ok :
    ∀ l : List Char, (∀ c ∈ l, slugCharOk c = true) → pctEncode l = l := by
  intro l h
  induction l with
  | nil => rfl
  | cons c cs ih =>
    show pctEncodeChar c ++ pctEncode cs = c :: cs
    rw [pctEncodeChar, if_pos (uriUnreserved_of_slugCharOk (h c (by simp)))]
    rw [ih (fun x hx => h x (by simp [hx]))]
    rfl

/-- C2: `init` fetches exactly when the slug parameter is present and
matches the anchored class regex (equivalently, when `validateSlug`
accepts it); every other value, including missing and empty, redirects
to the listing page; and on the fetch path the interpolated
`encodeURIComponent(slug)` equals the slug itself, whose characters all
lie in `[a-zA-Z0-9_-]` and so are never `/` or `.`. -/
theorem nbInit_c2 (slug : Option String) :
    ((∃ url, nbInit slug = InitStep.fetchUrl url) ↔
      ∃ s, slug = some s ∧ nbSlugOk s = true) ∧
    (∀ s, slug = some s → nbSlugOk s = true →
      nbInit slug = InitStep.fetchUrl
        ("/tutorials/_rendered/" ++ s ++ ".json") ∧
      encodeURIComponent s = s ∧ validateSlug slug = some s ∧
      ∀ c ∈ s.data, slugCharOk c = true ∧ c ≠ '/' ∧ c ≠ '.') ∧
    (∀ s, slug = some s → nbSlugOk s = false →
      nbInit slug = InitStep.redirect "/tutorials/" ∧
      validateSlug slug = none) ∧
    (slug = none → nbInit slug = InitStep.redirect "/tutorials/" ∧
      validateSlug slug = none) := by
  have hne : ∀ s : String, nbSlugOk s = true → s ≠ "" := by
    intro s hs heq
    rw [heq] at hs
    exact absurd hs (by decide)
  have hfetch : ∀ s : String, nbSlugOk s = true →
      nbInit (some s) = InitStep.fetchUrl
        ("/tutorials/_rendered/" ++ s ++ ".json") ∧
      encodeURIComponent s = s := by
    intro s hs
    have hall : ∀ c ∈ s.data, slugCharOk c = true := by
      intro c hc
      have hs2 := hs
      simp only [nbSlugOk, Bool.and_eq_true] at hs2
      exact List.all_eq_true.mp hs2.2 c hc
    have henc : encodeURIComponent s = s := by
      cases s with
      | mk data =>
        show (⟨pctEncode data⟩ : String) = ⟨data⟩
        rw [pctEncode_eq_self_of_ok data hall]
    refine ⟨?_, henc⟩
    rw [nbInit, if_neg (by
      intro hcon
      rcases hcon with hcon | hcon
      · exact hne s hs hcon
      · rw [hs] at hcon; cases hcon)]
    rw [henc]
  refine ⟨?_, ?_, ?_, ?_⟩
  · constructor
    · intro ⟨url, hurl⟩
      cases slug with
      | none => rw [nbInit] at hurl; cases hurl
      | some s =>
        refine ⟨s, rfl, ?_⟩
        cases hok : nbSlugOk s with
        | true => rfl
        | false =>
          rw [nbInit, if_pos (Or.inr hok)] at hurl
          cases hurl
    · intro ⟨s, hs, hok⟩
      rw [hs]
      exact ⟨_, (hfetch s hok).1⟩
  · intro s hs hok
    rw [hs]
    refine ⟨(hfetch s hok).1, (hfetch s hok).2, ?_, ?_⟩
    · rw [validateSlug, if_neg (hne s hok), if_pos hok]
    · intro c hc
      have hok2 := hok
      simp only [nbSlugOk, Bool.and_eq_true] at hok2
      have hcok : slugCharOk c = true := List.all_eq_true.mp hok2.2 c hc
      exact ⟨hcok, slugCharOk_ne hcok⟩
  · intro s hs hok
    rw [hs]
    constructor
    · rw [nbInit, if_pos (Or.inr hok)]
    · rw [validateSlug]
      by_cases hemp : s = ""
      · rw [if_pos hemp]
      · rw [if_neg hemp, hok, if_neg (by decide)]
  · intro hs
    rw [hs]
    exact ⟨rfl, rfl⟩

/-- Witness for `nbInit_c2`: the slug `abc_1-2` matches and is fetched
verbatim inside the rendered-notebook URL; the traversal attempt
`../../secret` fails the test and redirects without any fetch. -/
theorem nbInit_c2_witness :
    nbInit (some "abc_1-2") =
      InitStep.fetchUrl "/tutorials/_rendered/abc_1-2.json" ∧
    nbInit (some "../../secret") = InitStep.redirect "/tutorials/" ∧
    nbInit none = InitStep.redirect "/tutorials/" :=
  ⟨((nbInit_c2 (some "abc_1-2")).2.1 "abc_1-2" rfl (by decide)).1,
   ((nbInit_c2 (some "../../secret")).2.2.1 "../../secret" rfl (by decide)).1,
   ((nbInit_c2 none).2.2.2 rfl).1⟩

end Site
